import Mathlib

/-!
Shallow embedding of the HS gesture-instrument core (music quantizer,
polyphony-managed audio engine, hand-tracking tick) and verification of the
frozen claims about it.

Conventions of the embedding:
* JS numbers that can be NaN are modelled by `JNum` (an exact rational or NaN);
  plain numeric values that are provably real are modelled by `ℚ`, integer
  counters and `Date.now()` timestamps by `ℤ`.
* Module-level mutable variables (`lastRightHandY`, `lastChord`, ...) are
  threaded explicitly: each embedded function takes the variables it reads and
  returns the variables it writes.
* Calls into the external Tone.js synthesizer facade are modelled as a list of
  emitted `SynthEvent`s; a facade that throws is modelled by `SynthBehavior`
  flags, and an exception escaping a function by `Except.error`.
-/

namespace HS

/-- A JavaScript number: NaN or an exact rational. -/
inductive JNum where
  | nan
  | num (q : ℚ)
  deriving DecidableEq

/-- A JavaScript value flowing into the quantizers' `y` parameter:
a number (possibly NaN) or a non-number (undefined etc.). -/
inductive JSVal where
  | num (q : ℚ)
  | nan
  | undef
  deriving DecidableEq

/-- JS `Math.min` (NaN absorbs). -/
def jmin : JNum → JNum → JNum
  | .nan, _ => .nan
  | .num _, .nan => .nan
  | .num a, .num b => .num (min a b)

/-- JS `Math.max` (NaN absorbs). -/
def jmax : JNum → JNum → JNum
  | .nan, _ => .nan
  | .num _, .nan => .nan
  | .num a, .num b => .num (max a b)

/-- The expression `typeof y === 'number' ? y : 0.5` (NaN is a number in JS). -/
def coerceY : JSVal → JNum
  | .num q => .num q
  | .nan => .nan
  | .undef => .num (1/2)

/-- utils.js `mapRange` on a real (non-NaN) value; every call site in the
embedded code passes literal bounds with `inMin < inMax`. -/
def mapRange (value inMin inMax outMin outMax : ℚ) : ℚ :=
  let clampedValue := max inMin (min inMax value)
  if inMin = inMax then outMin
  else (clampedValue - inMin) * (outMax - outMin) / (inMax - inMin) + outMin

/-- utils.js `mapRange` lifted to possibly-NaN values: all the internal
`Math.max`/`Math.min`/arithmetic propagate NaN. -/
def jsMapRange (value : JNum) (inMin inMax outMin outMax : ℚ) : JNum :=
  match value with
  | .nan => .nan
  | .num q => .num (mapRange q inMin inMax outMin outMax)

/-- JS `Math.floor` producing an integer, `none` for NaN. -/
def jfloorZ : JNum → Option ℤ
  | .nan => none
  | .num q => some ⌊q⌋

/-- JS array indexing `arr[i]` with an integer index: `undefined` (`none`)
when out of bounds. A NaN index (handled at call sites via `jfloorZ`) also
yields `undefined`. -/
def jsGet (l : List ℤ) (i : ℤ) : Option ℤ :=
  if 0 ≤ i then l.get? i.toNat else none

/-- Helper of `jsIndexOf`: index of the first occurrence counting from `i`. -/
def jsIndexOfFrom : List String → String → ℤ → ℤ
  | [], _, _ => -1
  | a :: rest, s, i => if a = s then i else jsIndexOfFrom rest s (i + 1)

/-- JS `Array.prototype.indexOf` (-1 when absent). -/
def jsIndexOf (l : List String) (s : String) : ℤ :=
  jsIndexOfFrom l s 0

/-- config.js `notes` (split in two to keep the literal readable; the value
is the one chromatic list of the source). -/
def notes : List String :=
  ["C", "C#", "D", "D#", "E", "F"] ++ ["F#", "G", "G#", "A", "A#", "B"]

/-- config.js `scales.major`. -/
def majorScale : List ℤ := [0, 2, 4, 5, 7, 9, 11]

/-- config.js `scales.minor`. -/
def minorScale : List ℤ := [0, 2, 3, 5, 7, 8, 10]

/-- config.js `scales.pentatonic`. -/
def pentatonicScale : List ℤ := [0, 2, 4, 7, 9, 12]

/-- config.js `scales.majorBlues`. -/
def majorBluesScale : List ℤ := [0, 3, 5, 6, 7, 10, 12]

/-- config.js `scales.minorBlues`. -/
def minorBluesScale : List ℤ := [0, 3, 5, 6, 7, 10, 12]

/-- config.js `scales.chromatic`. -/
def chromaticScale : List ℤ := [0, 1, 2, 3, 4, 5, 6, 7, 8, 9, 10, 11, 12]

/-- The lookup `scales[name] || scales.major` (property lookup on the fixed
scales object; an unknown key yields undefined, hence the major fallback). -/
def scaleFor (name : String) : List ℤ :=
  if name = "major" then majorScale
  else if name = "minor" then minorScale
  else if name = "pentatonic" then pentatonicScale
  else if name = "majorBlues" then majorBluesScale
  else if name = "minorBlues" then minorBluesScale
  else if name = "chromatic" then chromaticScale
  else majorScale

/-- config.js `chordTypes` as a lookup (none = undefined key). -/
def chordTypesLookup (k : String) : Option (List ℤ) :=
  if k = "major" then some [0, 4, 7]
  else if k = "minor" then some [0, 3, 7]
  else if k = "minor7" then some [0, 3, 7, 10]
  else if k = "diminished" then some [0, 3, 6]
  else if k = "augmented" then some [0, 4, 8]
  else if k = "sus4" then some [0, 5, 7]
  else if k = "dominant7" then some [0, 4, 7, 10]
  else if k = "major7" then some [0, 4, 7, 11]
  else none

/-- musicLogic.js `CHORD_PROGRESSIONS` with the `|| CHORD_PROGRESSIONS.major`
default applied by the caller. -/
def chordProgressionFor (name : String) : List String :=
  if name = "major" then
    ["major", "minor", "minor", "major", "major", "minor", "diminished"]
  else if name = "minor" then
    ["minor", "diminished", "major", "minor", "minor", "major", "major"]
  else if name = "dorian" then
    ["minor", "minor", "major", "major", "minor", "diminished", "major"]
  else if name = "phrygian" then
    ["minor", "major", "major", "minor", "diminished", "major", "minor"]
  else if name = "lydian" then
    ["major", "major", "minor", "diminished", "major", "minor", "minor"]
  else if name = "mixolydian" then
    ["major", "minor", "diminished", "major", "minor", "minor", "major"]
  else if name = "aeolian" then
    ["minor", "diminished", "major", "minor", "minor", "major", "major"]
  else if name = "locrian" then
    ["diminished", "major", "minor", "minor", "major", "major", "minor"]
  else if name = "majorBlues" then
    ["major", "major", "minor", "major", "major", "minor"]
  else if name = "minorBlues" then
    ["minor", "minor", "major", "minor", "minor", "major"]
  else if name = "pentatonicMajor" then
    ["major", "minor", "minor", "major", "minor"]
  else if name = "pentatonicMinor" then
    ["minor", "major", "minor", "minor", "major"]
  else if name = "chromatic" then
    ["major", "minor", "major", "minor", "major", "minor", "major", "minor",
     "major", "minor", "major", "minor"]
  else
    ["major", "minor", "minor", "major", "major", "minor", "diminished"]

/-- Pitch class value of a note letter (C = 0 semitones, ... B = 11). -/
def letterPc : Char → Option ℤ
  | 'C' => some 0
  | 'D' => some 2
  | 'E' => some 4
  | 'F' => some 5
  | 'G' => some 7
  | 'A' => some 9
  | 'B' => some 11
  | _ => none

/-- Reads a nonempty digit string as a natural number. -/
def digitsToNat (cs : List Char) : Option ℕ :=
  if cs ≠ [] ∧ cs.all Char.isDigit then
    some (cs.foldl (fun a c => a * 10 + (c.toNat - '0'.toNat)) 0)
  else none

/-- Parses a canonical pitch string `<letter A-G><optional #><octave digits>`
to its MIDI number ((octave + 1) * 12 + pitch class, so C4 = 60).
`none` for anything not of that shape. This doubles as the model of the
external `Tone.Frequency(s).toMidi()` (which throws on malformed strings). -/
def parsePitch (s : String) : Option ℤ :=
  match s.data with
  | [] => none
  | c :: rest =>
    match letterPc c with
    | none => none
    | some pc =>
      let x : ℤ × List Char :=
        match rest with
        | '#' :: ds => (pc + 1, ds)
        | ds => (pc, ds)
      match digitsToNat x.2 with
      | none => none
      | some oct => some (((oct : ℤ) + 1) * 12 + x.1)

/-- A string is a syntactically valid pitch (letter A-G, optional '#',
trailing integer octave) iff it parses. -/
def isValidPitch (s : String) : Bool :=
  (parsePitch s).isSome

/-- musicLogic.js `calculateNoteFromMIDI`. The source rounds its argument
with `Math.round`; both call sites pass integer sums, for which rounding is
the identity, so the embedding takes `ℤ`. -/
def calculateNoteFromMIDI (midiNote : ℤ) : String :=
  let clampedMidi := max 0 (min 127 midiNote)
  let noteIndex := clampedMidi % 12
  let octave := clampedMidi / 12 - 1
  let validNoteIndex := max 0 (min 11 noteIndex)
  let validOctave := max 0 (min 9 octave)
  notes.getD validNoteIndex.toNat "" ++ toString validOctave

/-- The music configuration slice of `appState.config` read by the
quantizers. `octave` is stored by the UI via `parseInt`, so it is either an
integer or NaN (`none`). -/
structure Config where
  selectedScale : String
  selectedRoot : String
  octave : Option ℤ
  deriving DecidableEq

/-- The expression `appState.config.octave || 4` (0 and NaN are falsy). -/
def octaveOr4 (cfg : Config) : ℤ :=
  match cfg.octave with
  | none => 4
  | some o => if o = 0 then 4 else o

/-- The expression `appState.config.selectedScale || 'major'`. -/
def effScaleName (cfg : Config) : String :=
  if cfg.selectedScale = "" then "major" else cfg.selectedScale

/-- The expression `appState.config.selectedRoot || 'C'`. -/
def effRoot (cfg : Config) : String :=
  if cfg.selectedRoot = "" then "C" else cfg.selectedRoot

/-- `getNoteFromPosition`'s `Math.max(2, Math.min(7, octave || 4))`. -/
def melodyOctave (cfg : Config) : ℤ :=
  max 2 (min 7 (octaveOr4 cfg))

/-- `getChordFromPosition`'s `Math.max(2, Math.min(6, octave || 4))`. -/
def chordOctaveOf (cfg : Config) : ℤ :=
  max 2 (min 6 (octaveOr4 cfg))

/-- `getNoteFromPosition`'s `totalRange = Math.max(14, scaleLength + 7)`. -/
def totalRangeFor (cfg : Config) : ℤ :=
  max 14 ((scaleFor (effScaleName cfg)).length + 7)

/-- `getNoteFromPosition`'s
`position = Math.floor(mapRange(validY, 0, 1, totalRange - 1, 0))`
for a real (non-NaN) clamped y. -/
def notePosition (cfg : Config) (vq : ℚ) : ℤ :=
  ⌊mapRange vq 0 1 ((totalRangeFor cfg - 1 : ℤ) : ℚ) 0⌋

/-- `getNoteFromPosition`'s `octaveOffset = Math.floor(position / scaleLength)`. -/
def noteOctaveOffset (cfg : Config) (vq : ℚ) : ℤ :=
  Int.fdiv (notePosition cfg vq) ((scaleFor (effScaleName cfg)).length : ℤ)

/-- `getNoteFromPosition`'s `indexInScale = position % scaleLength` (JS
truncated remainder, applied to a nonnegative position). -/
def noteIndexInScale (cfg : Config) (vq : ℚ) : ℤ :=
  Int.tmod (notePosition cfg vq) ((scaleFor (effScaleName cfg)).length : ℤ)

/-- `getNoteFromPosition`'s `semitones = scaleArray[indexInScale]`. -/
def noteSemitones (cfg : Config) (vq : ℚ) : Option ℤ :=
  jsGet (scaleFor (effScaleName cfg)) (noteIndexInScale cfg vq)

/-- The real-y path of musicLogic.js `getNoteFromPosition` after input
validation (see `getNoteFromPosition` for the NaN path):
`midiBase = 60 + rootIndex`, `finalOctaveOffset = currentOctave - 4 +
octaveOffset`, `midiNote = midiBase + semitones + finalOctaveOffset * 12`. -/
def getNoteNum (vq : ℚ) (cfg : Config) : String :=
  match noteSemitones cfg vq with
  | none => effRoot cfg ++ toString (melodyOctave cfg)
  | some semitones =>
    if semitones < 0 ∨ 12 < semitones then
      effRoot cfg ++ toString (melodyOctave cfg)
    else if jsIndexOf notes (effRoot cfg) = -1 then
      "C" ++ toString (melodyOctave cfg)
    else
      calculateNoteFromMIDI
        (60 + jsIndexOf notes (effRoot cfg) + semitones +
          (melodyOctave cfg - 4 + noteOctaveOffset cfg vq) * 12)

/-- musicLogic.js `getNoteFromPosition`, with the module-level mutable
`lastRightHandY` threaded explicitly (second component of the result).
A NaN input survives the validation clamp (`Math.max/min` propagate NaN),
makes `position`, `octaveOffset` and `indexInScale` NaN, so the lookup
`scaleArray[indexInScale]` is `undefined` and the invalid-semitones fallback
`` `${currentRoot}${currentOctave}` `` is returned. -/
def getNoteFromPosition (y : JSVal) (cfg : Config) (lastRightHandY : JNum) :
    String × JNum :=
  let validY := jmax (.num 0) (jmin (.num 1) (coerceY y))
  match validY with
  | .nan => (effRoot cfg ++ toString (melodyOctave cfg), .nan)
  | .num vq => (getNoteNum vq cfg, .num vq)

/-- A chord object as built by musicLogic.js. `scaleDegree`/`midiBase` are
the debug fields attached by `createChord` (absent, i.e. `none`, on fallback
chords); `error` is the flag attached by `createFallbackChord`. -/
structure Chord where
  root : String
  type : String
  notes : List String
  name : String
  scaleDegree : Option JNum := none
  midiBase : Option ℤ := none
  error : Bool := false
  deriving DecidableEq

/-- musicLogic.js `getChordDisplayName`. -/
def getChordDisplayName (chordTypeKey : String) : String :=
  if chordTypeKey = "major" then ""
  else if chordTypeKey = "minor" then "m"
  else if chordTypeKey = "diminished" then "dim"
  else if chordTypeKey = "augmented" then "aug"
  else if chordTypeKey = "dominant7" then "7"
  else if chordTypeKey = "minor7" then "m7"
  else if chordTypeKey = "major7" then "maj7"
  else if chordTypeKey = "diminished7" then "dim7"
  else ""

/-- musicLogic.js `createFallbackChord`. -/
def createFallbackChord (root : String) (octave : ℤ) : Chord :=
  let safeRoot := if notes.contains root then root else "C"
  let safeOctave := max 1 (min 6 octave)
  { root := safeRoot
    type := "major"
    notes :=
      [safeRoot ++ toString safeOctave,
       notes.getD (Int.tmod (jsIndexOf notes safeRoot + 4) 12).toNat "" ++
         toString safeOctave,
       notes.getD (Int.tmod (jsIndexOf notes safeRoot + 7) 12).toNat "" ++
         toString safeOctave]
    name := safeRoot
    error := true }

/-- `createChord`'s note generation: the `intervals.forEach` with an early
`return` on an invalid entry is a filter (non-numeric entries cannot occur:
the chord-type table holds integers) followed by a map. -/
def createChordNotes (midiBaseForChord : ℤ) (intervals : List ℤ) : List String :=
  (intervals.filter (fun i => decide (0 ≤ i ∧ i ≤ 24))).map
    (fun interval => calculateNoteFromMIDI (midiBaseForChord + interval))

/-- musicLogic.js `createChord`, with
`midiBaseForChord = 12 * Math.max(1, octave) + chordRootIndex`;
`lastLeftHandY` is the module variable read for the `scaleDegree` debug
field. -/
def createChord (chordRoot : String) (chordTypeKey : String) (octave : ℤ)
    (lastLeftHandY : JNum) : Chord :=
  match chordTypesLookup chordTypeKey with
  | none => createFallbackChord chordRoot octave
  | some intervals =>
    if jsIndexOf notes chordRoot = -1 then createFallbackChord "C" octave
    else
      { root := chordRoot
        type := chordTypeKey
        notes :=
          if createChordNotes (12 * max 1 octave + jsIndexOf notes chordRoot)
              intervals = [] then
            [calculateNoteFromMIDI (12 * max 1 octave + jsIndexOf notes chordRoot)]
          else
            createChordNotes (12 * max 1 octave + jsIndexOf notes chordRoot)
              intervals
        name := chordRoot ++ getChordDisplayName chordTypeKey
        scaleDegree := some lastLeftHandY
        midiBase := some (12 * max 1 octave + jsIndexOf notes chordRoot) }

/-- `getChordFromPosition`'s `chordRange = Math.min(scaleLength, 8)`. -/
def chordRangeFor (cfg : Config) : ℤ :=
  min ((scaleFor (effScaleName cfg)).length : ℤ) 8

/-- `getChordFromPosition`'s
`position = Math.floor(mapRange(validY, 0.15, 0.85, chordRange - 1, 0))`
for a real (non-NaN) clamped y. -/
def chordPosition (cfg : Config) (vq : ℚ) : ℤ :=
  ⌊mapRange vq (3/20) (17/20) ((chordRangeFor cfg - 1 : ℤ) : ℚ) 0⌋

/-- `getChordFromPosition`'s
`scaleDegree = Math.max(0, Math.min(scaleLength - 1, position))`. -/
def chordScaleDegree (cfg : Config) (vq : ℚ) : ℤ :=
  max 0 (min ((scaleFor (effScaleName cfg)).length - 1) (chordPosition cfg vq))

/-- `getChordFromPosition`'s `degreeOffset = scaleArray[scaleDegree]`. -/
def chordDegreeOffset (cfg : Config) (vq : ℚ) : Option ℤ :=
  jsGet (scaleFor (effScaleName cfg)) (chordScaleDegree cfg vq)

/-- `getChordFromPosition`'s
`chordTypeKey = chordProgression[scaleDegree % chordProgression.length] || 'major'`
(the index is always in range; `||` also covers an empty string entry,
which the table never holds). -/
def chordBaseTypeKey (cfg : Config) (vq : ℚ) : String :=
  match (chordProgressionFor (effScaleName cfg)).get?
      (Int.tmod (chordScaleDegree cfg vq)
        ((chordProgressionFor (effScaleName cfg)).length : ℤ)).toNat with
  | some k => if k = "" then "major" else k
  | none => "major"

/-- `getChordFromPosition`'s chord-type key after the optional 7th-chord
upgrade. -/
def chordTypeKeyFor (cfg : Config) (vq : ℚ) (use7thChords : Bool) : String :=
  if use7thChords then
    if chordBaseTypeKey cfg vq = "major" then
      if chordScaleDegree cfg vq = 4 then "dominant7" else "major7"
    else if chordBaseTypeKey cfg vq = "minor" then "minor7"
    else if chordBaseTypeKey cfg vq = "diminished" then "diminished7"
    else chordBaseTypeKey cfg vq
  else chordBaseTypeKey cfg vq

/-- The chord root name `notes[(rootIndex + degreeOffset) % 12]`. -/
def chordRootName (cfg : Config) (degreeOffset : ℤ) : String :=
  notes.getD
    (Int.tmod (jsIndexOf notes (effRoot cfg) + degreeOffset) 12).toNat ""

/-- The real-y path of musicLogic.js `getChordFromPosition` after input
validation. `validLeftY` is the already-written module `lastLeftHandY`
value, read back by `createChord` for its debug field. (The unknown-type-key
branch passes 'major' to `createChord`; with the 7th-chord upgrade this is
reachable: 'diminished7' is absent from the chord-type table.) -/
def getChordNum (vq : ℚ) (use7thChords : Bool) (cfg : Config)
    (validLeftY : JNum) : Chord :=
  if jsIndexOf notes (effRoot cfg) = -1 then
    createFallbackChord (effRoot cfg) (chordOctaveOf cfg)
  else
    match chordDegreeOffset cfg vq with
    | none => createFallbackChord (effRoot cfg) (chordOctaveOf cfg)
    | some degreeOffset =>
      if degreeOffset < 0 ∨ 11 < degreeOffset then
        createFallbackChord (effRoot cfg) (chordOctaveOf cfg)
      else if (chordTypesLookup (chordTypeKeyFor cfg vq use7thChords)).isNone then
        createChord (chordRootName cfg degreeOffset) "major"
          (chordOctaveOf cfg - 1) validLeftY
      else
        createChord (chordRootName cfg degreeOffset)
          (chordTypeKeyFor cfg vq use7thChords)
          (chordOctaveOf cfg - 1) validLeftY

/-- musicLogic.js `getChordFromPosition`, with the module-level mutable
`lastLeftHandY` threaded explicitly (second component of the result).
On a NaN input the NaN `scaleDegree` makes `scaleArray[scaleDegree]`
undefined; whether the invalid-root or the invalid-degree branch fires, the
result is `createFallbackChord(currentRoot, currentOctave)` (the fallback
itself sanitizes an invalid root). -/
def getChordFromPosition (y : JSVal) (use7thChords : Bool) (cfg : Config)
    (lastLeftHandY : JNum) : Chord × JNum :=
  let validY := jmax (.num 0) (jmin (.num 1) (coerceY y))
  match validY with
  | .nan => (createFallbackChord (effRoot cfg) (chordOctaveOf cfg), .nan)
  | .num vq => (getChordNum vq use7thChords cfg (.num vq), .num vq)

/-! The optimized audio engine of part_002 (polyphony-managed
`playChord`, throttled `playMelodyNote`, `stopChord`, `stopMelody`). -/

/-- The three-state machine value of `appState.audio.harmonyHandState`. -/
inductive HandState where
  | moving
  | settling
  | settled
  deriving DecidableEq

/-- One entry of the engine's `movementHistory`. -/
structure Movement where
  lastY : ℚ
  lastTime : ℤ
  velocity : ℚ
  deriving DecidableEq

/-- The slice of `appState.audio` that the engine reads and writes. We model
the synth objects' existence by `audioStarted` (setupAudio creates them once
the audio context is started). `harmonyHandState = none` is the pristine
undefined value (normalized to "settled" on first `playChord`);
`settleStartTime = none` covers both undefined and null (the code never
distinguishes them: it only tests truthiness). -/
structure AudioState where
  audioStarted : Bool
  rightHandIsPlaying : Bool
  leftHandIsPlaying : Bool
  currentMelodyNote : Option String
  currentChord : Option Chord
  harmonyHandState : Option HandState
  settleStartTime : Option ℤ
  deriving DecidableEq

/-- The engine's module-level mutable variables together with its
`appState.audio` slice. The purely visual scalars (`particleExplosionFactor`,
`pulseFactor`, `noteChangeTime`, `chordChangeTime`) are omitted: they feed
only the particle system. -/
structure EngineState where
  audio : AudioState
  lastMelodyNote : Option String
  lastChord : Option Chord
  lastNoteChangeTime : ℤ
  lastChordChangeTime : ℤ
  movementMelody : Movement
  movementHarmony : Movement
  deriving DecidableEq

/-- The engine state right after page load (and after `setupAudio` when
`started` is true): nothing sounding, pristine hand state. -/
def initEngineState (started : Bool) : EngineState :=
  { audio :=
    { audioStarted := started
      rightHandIsPlaying := false
      leftHandIsPlaying := false
      currentMelodyNote := none
      currentChord := none
      harmonyHandState := none
      settleStartTime := none }
    lastMelodyNote := none
    lastChord := none
    lastNoteChangeTime := 0
    lastChordChangeTime := 0
    movementMelody := ⟨0, 0, 0⟩
    movementHarmony := ⟨0, 0, 0⟩ }

/-- A call into the external Tone.js synthesizer facade. -/
inductive SynthEvent where
  | attack (ns : List String) (time : ℚ) (velocity : ℚ)
  | release (ns : List String) (time : ℚ)
  | releaseAll (time : ℚ)
  | melodyAttack (note : String) (time : ℚ) (velocity : ℚ)
  | melodySetNote (note : String) (time : ℚ)
  | melodyRelease (time : ℚ)
  deriving DecidableEq

/-- Whether the synthesizer facade throws on `triggerAttack` /
`triggerRelease` (resource exhaustion in the underlying engine). -/
structure SynthBehavior where
  throwOnAttack : Bool
  throwOnRelease : Bool
  deriving DecidableEq

/-- The well-behaved facade: never throws. -/
def okSynth : SynthBehavior := ⟨false, false⟩

/-- JS `new Set(l)` materialized back into a list ([...set]): keeps the
first occurrence of each element, in insertion order. -/
def jsSetOf (l : List String) : List String :=
  l.foldl (fun acc n => if acc.contains n then acc else acc ++ [n]) []

/-- The expression `x || d` on `number | null | undefined` (null, undefined
and 0 are falsy). -/
def jsOrIntD (x : Option ℤ) (d : ℤ) : ℤ :=
  match x with
  | none => d
  | some t => if t = 0 then d else t

/-- part_002 `chordEquals`. The `!chord.notes` guards never fire in the
embedding (a notes field is always an array, and arrays are truthy).
JS `.sort()` on note strings is lexicographic by code unit, matching
`String` order. -/
def chordEquals (chord1 chord2 : Option Chord) : Bool :=
  match chord1, chord2 with
  | none, none => true
  | none, some _ => false
  | some _, none => false
  | some c1, some c2 =>
    if c1.name ≠ c2.name then false
    else if c1.notes.length ≠ c2.notes.length then false
    else
      let notes1 := c1.notes.mergeSort (fun a b => a ≤ b)
      let notes2 := c2.notes.mergeSort (fun a b => a ≤ b)
      (notes1.zip notes2).all (fun p => p.1 == p.2)

/-- part_002 `getBassNote`: reduce to the note with the smallest
`Tone.Frequency(note).toMidi()` (strictly-smaller keeps the earlier note on
ties); if the conversion throws on any note (modelled by `parsePitch`
failing), the catch returns `notesArray[0]`. -/
def getBassNote (notesArray : List String) : Option String :=
  match notesArray with
  | [] => none
  | [n] => some n
  | n :: rest =>
    if (n :: rest).all (fun s => (parsePitch s).isSome) then
      some (rest.foldl
        (fun bass currentNote =>
          if (parsePitch currentNote).getD 0 < (parsePitch bass).getD 0 then
            currentNote
          else bass) n)
    else some n

/-- part_002 `updateMovementTracking`: returns the updated history entry and
the velocity it reports. -/
def updateMovementTracking (tracking : Movement) (position : ℚ) (now : ℤ) :
    Movement × ℚ :=
  let tracking :=
    if 0 < tracking.lastTime then
      let timeDelta := now - tracking.lastTime
      let positionDelta := |position - tracking.lastY|
      { tracking with
        velocity :=
          if 0 < timeDelta then positionDelta / ((timeDelta : ℚ) / 1000)
          else 0 }
    else tracking
  ({ tracking with lastY := position, lastTime := now }, tracking.velocity)

/-- part_002 `stopChord` (`toneNow` is the `Tone.now()` it samples). -/
def stopChord (st : EngineState) (toneNow : ℚ) :
    EngineState × List SynthEvent :=
  if ¬ st.audio.audioStarted then (st, [])
  else if st.audio.leftHandIsPlaying ||
      (match st.audio.currentChord with
       | some c => decide (0 < c.notes.length)
       | none => false) then
    ({ st with
        audio := { st.audio with
          leftHandIsPlaying := false
          currentChord := none
          harmonyHandState := some .settled
          settleStartTime := none }
        lastChord := none },
     [SynthEvent.releaseAll toneNow])
  else
    ({ st with
        audio := { st.audio with
          harmonyHandState := some .settled
          settleStartTime := none } },
     [])

/-- part_002 `stopMelody`. -/
def stopMelody (st : EngineState) (toneNow : ℚ) :
    EngineState × List SynthEvent :=
  if ¬ st.audio.audioStarted then (st, [])
  else if st.audio.rightHandIsPlaying then
    ({ st with
        audio := { st.audio with
          rightHandIsPlaying := false
          currentMelodyNote := none }
        lastMelodyNote := none },
     [SynthEvent.melodyRelease toneNow])
  else (st, [])

/-- The hand-state machine and target-set computation of part_002
`playChord` (lines 344-373): from the current state, settle timer, time,
velocity and the raw chord notes, produce the new hand state, the new settle
timer, and `targetNotesThisStepSet` in set-iteration order. -/
def chordTargetNotes (hs0 : HandState) (settleStart : Option ℤ) (now : ℤ)
    (velocity : ℚ) (isMovingFast : Bool) (newRawNotes : List String) :
    HandState × Option ℤ × List String :=
  if isMovingFast then
    (.moving, none,
      match getBassNote newRawNotes with
      | some b => [b]
      | none => [])
  else
    let s1 : HandState × Option ℤ :=
      if hs0 = .moving then (.settling, some now) else (hs0, settleStart)
    let hs2 : HandState :=
      if s1.1 = .settling ∧ 200 < now - jsOrIntD s1.2 now then .settled
      else s1.1
    if hs2 = .settled then
      let maxVoices := min 12 newRawNotes.length
      (hs2, s1.2, jsSetOf ((newRawNotes.take maxVoices).filter (fun s => !(s == ""))))
    else
      let settleNotes : List (Option String) :=
        [getBassNote newRawNotes] ++
        (if 1 < newRawNotes.length then [newRawNotes.get? 1] else []) ++
        (if 2 < newRawNotes.length ∧ velocity < 3/10 then [newRawNotes.get? 2]
         else [])
      (hs2, s1.2, jsSetOf ((settleNotes.filterMap id).filter (fun s => !(s == ""))))

/-- The allocator's internal model of what is sounding:
`appState.audio.currentChord.notes` (empty when no chord object); the
expression `appState.audio.currentChord?.notes || []`. -/
def currentChordNotes (st : EngineState) : List String :=
  match st.audio.currentChord with
  | some c => c.notes
  | none => []

/-- `playChord`'s `notesToRelease`: previously playing set minus target. -/
def notesToReleaseOf (prev target : List String) : List String :=
  prev.filter (fun n => !(target.contains n))

/-- `playChord`'s `notesToAttack`: target minus previously playing set. -/
def notesToAttackOf (prev target : List String) : List String :=
  target.filter (fun n => !(prev.contains n))

/-- `playChord`'s `notesThatContinue`: previously playing set intersected
with the target. -/
def notesThatContinueOf (prev target : List String) : List String :=
  prev.filter (fun n => target.contains n)

/-- `playChord`'s `actualNotesToAttack = notesToAttack.slice(0,
Math.max(0, voicesAvailable))` with
`voicesAvailable = MAX_HARMONY_VOICES - notesThatContinue.length`. -/
def actualNotesToAttackOf (prev target : List String) : List String :=
  (notesToAttackOf prev target).take
    (max 0 (12 - ((notesThatContinueOf prev target).length : ℤ))).toNat

/-- The `triggerRelease` call of `playChord` (lines 382-384). -/
def releaseEventsOf (prev target : List String) (toneNow : ℚ) :
    List SynthEvent :=
  if notesToReleaseOf prev target ≠ [] then
    [SynthEvent.release (notesToReleaseOf prev target) toneNow]
  else []

/-- The `triggerAttack` call of `playChord` (lines 387-396): attack delay
0.015 after a release, else 0.01; velocity softened by gesture speed. -/
def attackEventsOf (prev target : List String) (velocity : ℚ)
    (toneNow : ℚ) : List SynthEvent :=
  if actualNotesToAttackOf prev target ≠ [] then
    [SynthEvent.attack (actualNotesToAttackOf prev target)
      (toneNow + (if notesToReleaseOf prev target ≠ [] then 3/200 else 1/100))
      (min (4/5 : ℚ) (2/5 + (1 - min velocity 2) * (2/5)))]
  else []

/-- `playChord`'s `finalNotesForState = [...new Set([...notesThatContinue,
...notesToAttack])]` (note: the untruncated `notesToAttack`). -/
def finalNotesForStateOf (prev target : List String) : List String :=
  jsSetOf (notesThatContinueOf prev target ++ notesToAttackOf prev target)

/-- part_002 `playChord`, lines 339-412: the part after the throttling gate.
`hs'`, `ss'` and `targetSet` are the results of the state machine
(`chordTargetNotes`); the facade calls happen in source order (release, then
attack), so with a throwing facade the first throwing call aborts the
update (no try/catch here). The final state update (lines 398-404) stores
`finalNotesForState` as the new `currentChord.notes` and sets
`leftHandIsPlaying` to its nonemptiness. -/
def playChordProcessed (b : SynthBehavior) (st : EngineState) (ch : Chord)
    (velocity : ℚ) (hs' : HandState) (ss' : Option ℤ)
    (prev targetSet : List String) (now : ℤ) (toneNow : ℚ) :
    Except Unit (EngineState × List SynthEvent) :=
  if notesToReleaseOf prev targetSet ≠ [] ∧ b.throwOnRelease then .error ()
  else if actualNotesToAttackOf prev targetSet ≠ [] ∧ b.throwOnAttack then
    .error ()
  else
    .ok ({ st with
            audio := { st.audio with
              currentChord :=
                some { ch with notes := finalNotesForStateOf prev targetSet }
              leftHandIsPlaying := !(finalNotesForStateOf prev targetSet).isEmpty
              harmonyHandState := some hs'
              settleStartTime := ss' }
            lastChord := some ch
            lastChordChangeTime := now },
          releaseEventsOf prev targetSet toneNow ++
            attackEventsOf prev targetSet velocity toneNow)

/-- part_002 `playChord`, lines 298-304: initialize
`appState.audio.harmonyHandState` to "settled" when it is still undefined
(the pristine `none`; `settleStartTime`'s undefined-to-null normalization is
invisible in the model, where `none` covers both). -/
def initHarmonyState (st : EngineState) : EngineState :=
  { st with audio :=
    { st.audio with
      harmonyHandState := some (st.audio.harmonyHandState.getD .settled) } }

/-- part_002 `playChord` after input/stop handling and movement tracking:
the throttling gate `shouldUpdate = chordChanged && (timeSince >
MIN_CHORD_INTERVAL || (!isMovingFast && timeSince > MIN_CHORD_INTERVAL *
0.5))`, then the processed update on the state machine's target set. -/
def playChordGated (b : SynthBehavior) (st : EngineState) (ch : Chord)
    (velocity : ℚ) (now : ℤ) (toneNow : ℚ) :
    Except Unit (EngineState × List SynthEvent) :=
  if ¬ (!chordEquals (some ch) st.lastChord &&
      (decide (80 < now - st.lastChordChangeTime) ||
       (!(decide ((6 : ℚ)/5 < velocity)) &&
        decide (40 < now - st.lastChordChangeTime)))) = true then
    .ok (st, [])
  else
    playChordProcessed b st ch velocity
      (chordTargetNotes (st.audio.harmonyHandState.getD .settled)
        st.audio.settleStartTime now velocity
        (decide ((6 : ℚ)/5 < velocity)) ch.notes).1
      (chordTargetNotes (st.audio.harmonyHandState.getD .settled)
        st.audio.settleStartTime now velocity
        (decide ((6 : ℚ)/5 < velocity)) ch.notes).2.1
      (jsSetOf (currentChordNotes st))
      (chordTargetNotes (st.audio.harmonyHandState.getD .settled)
        st.audio.settleStartTime now velocity
        (decide ((6 : ℚ)/5 < velocity)) ch.notes).2.2
      now toneNow

/-- part_002 `playChord`. Inputs mirror the call plus the ambient clocks
(`now` = `Date.now()`, `toneNow` = `Tone.now()`); `handPosition = none`
stands for a non-numeric position (the `.y` / landmark fallbacks of lines
316-322 likewise produce some numeric y, and call sites pass `wrist.y`).
There is no try/catch anywhere in this function, so a facade throw
(`SynthBehavior`) escapes as `Except.error` (the state writes that precede
the throwing call are lost to the caller, which never catches anyway). -/
def playChord (b : SynthBehavior) (st : EngineState) (chord : Option Chord)
    (handPosition : Option ℚ) (now : ℤ) (toneNow : ℚ) :
    Except Unit (EngineState × List SynthEvent) :=
  if ¬ st.audio.audioStarted then .ok (st, [])
  else
    match chord with
    | none =>
      .ok (if st.audio.leftHandIsPlaying then
            stopChord (initHarmonyState st) toneNow
          else (initHarmonyState st, []))
    | some ch =>
      if ch.notes.isEmpty then
        .ok (if st.audio.leftHandIsPlaying then
              stopChord (initHarmonyState st) toneNow
            else (initHarmonyState st, []))
      else
        playChordGated b
          { initHarmonyState st with movementHarmony :=
              (updateMovementTracking st.movementHarmony
                (handPosition.getD (1/2)) now).1 }
          ch
          (updateMovementTracking st.movementHarmony (handPosition.getD (1/2))
            now).2
          now toneNow

/-- part_002 `playMelodyNote`, after the early-return guard and movement
tracking: the `shouldUpdate` gate (`noteChanged && (timeSince > 30 ||
velocity < 0.5)`) and the sounding body, which sits inside a try/catch: a
facade throw is absorbed (`console.error`) and the function returns
normally, with the state writes after the throwing call skipped. -/
def playMelodyNoteGated (b : SynthBehavior) (st : EngineState) (n : String)
    (velocity : ℚ) (now : ℤ) (toneNow : ℚ) :
    Except Unit (EngineState × List SynthEvent) :=
  if ¬ (st.lastMelodyNote ≠ some n ∧
      (30 < now - st.lastNoteChangeTime ∨ velocity < 1/2)) then .ok (st, [])
  else if ¬ st.audio.rightHandIsPlaying then
    if b.throwOnAttack then .ok (st, [])
    else
      .ok ({ st with
              audio := { st.audio with
                rightHandIsPlaying := true
                currentMelodyNote := some n }
              lastMelodyNote := some n
              lastNoteChangeTime := now },
            [SynthEvent.melodyAttack n toneNow (4/5)])
  else
    if b.throwOnAttack then .ok (st, [])
    else
      .ok ({ st with
              audio := { st.audio with currentMelodyNote := some n }
              lastMelodyNote := some n
              lastNoteChangeTime := now },
            [SynthEvent.melodySetNote n
              (toneNow + (if 1 < velocity then 1/50 else 1/25))])

/-- part_002 `playMelodyNote`: early-return guard (`!audioStarted ||
!melodySynth || !note`; `!note` also rejects the empty string), movement
tracking, then the gated body. -/
def playMelodyNote (b : SynthBehavior) (st : EngineState)
    (note : Option String) (handPosition : Option ℚ) (now : ℤ) (toneNow : ℚ) :
    Except Unit (EngineState × List SynthEvent) :=
  match note with
  | none => .ok (st, [])
  | some n =>
    if ¬ st.audio.audioStarted ∨ n = "" then .ok (st, [])
    else
      playMelodyNoteGated b
        { st with movementMelody :=
            (updateMovementTracking st.movementMelody (handPosition.getD (1/2))
              now).1 }
        n
        (updateMovementTracking st.movementMelody (handPosition.getD (1/2))
          now).2
        now toneNow

/-- One harmony-hand gesture sample delivered to `playChord`. -/
structure ChordInput where
  chord : Option Chord
  handPosition : Option ℚ
  now : ℤ
  toneNow : ℚ
  deriving DecidableEq

/-- Feeds a sequence of chord updates through `playChord` with the
well-behaved facade, collecting all synthesizer calls. (`okSynth` never
throws; the error branch is unreachable.) -/
def runChordUpdates : EngineState → List ChordInput → EngineState × List SynthEvent
  | st, [] => (st, [])
  | st, i :: rest =>
    match playChord okSynth st i.chord i.handPosition i.now i.toneNow with
    | .ok (st1, evs) =>
      let r := runChordUpdates st1 rest
      (r.1, evs ++ r.2)
    | .error _ => (st, [])

/-! The hand-tracking tick of handTracker.js `onHandResults`, restricted to
the audio-relevant state: canvas drawing and the `setVolume` path (which
touches only the synth volume) are omitted. -/

/-- handTracker.js `previousStates.rightHand` (its `volume` entry feeds only
the omitted volume path, its `isPresent` entry is never read). The defaults
are the reset values used on hand disappearance. -/
structure PrevRight where
  note : Option String := none
  yPosition : ℚ := 1/2
  deriving DecidableEq

/-- handTracker.js `previousStates.leftHand`; `note` stores the chord object
last sent to `playChord`. -/
structure PrevLeft where
  note : Option Chord := none
  yPosition : ℚ := 1/2
  lastSignificantY : ℚ := 1/2
  deriving DecidableEq

/-- A detected hand in one MediaPipe result: `wristY = none` models a
missing/invalid wrist landmark (`landmarks.length <= 8` or `wrist.y` not a
number), in which case the per-hand audio block is skipped. -/
structure HandSample where
  wristY : Option ℚ
  deriving DecidableEq

/-- One `onHandResults` delivery. `right`/`left` are the hands present in
`results.multiHandLandmarks` keyed by the (mirrored) MediaPipe handedness
label; `perfNow` is `performance.now()`, `now` is `Date.now()`, `toneNow` is
`Tone.now()`. `startAudio` models the Start Audio button having completed
before this tick (sets `audioStarted` and creates the synths). -/
structure TickInput where
  right : Option HandSample
  left : Option HandSample
  perfNow : ℚ
  now : ℤ
  toneNow : ℚ
  startAudio : Bool
  deriving DecidableEq

/-- The tracker module state: its own previous-state bookkeeping plus the
engine state, the music config, and musicLogic's `lastRightHandY` /
`lastLeftHandY` module variables. -/
structure TrackerState where
  engine : EngineState
  config : Config
  isLeftHandPresent : Bool := false
  isRightHandPresent : Bool := false
  initialHandDetected : Bool := false
  lastAudioUpdate : ℚ := 0
  prevRight : PrevRight := {}
  prevLeft : PrevLeft := {}
  lastRightHandY : JNum := .num 0
  lastLeftHandY : JNum := .num 0
  deriving DecidableEq

/-- All-module state at page load (audio not yet started). -/
def initTrackerState (cfg : Config) : TrackerState :=
  { engine := initEngineState false, config := cfg }

/-- The MediaPipe-label-'Left' branch of the per-hand loop (lines 142-171):
drives the right hand / melody axis. -/
def processRightHand (ts : TrackerState) (h : HandSample) (shouldAudio : Bool)
    (inp : TickInput) : TrackerState × List SynthEvent :=
  let ts := { ts with isRightHandPresent := true }
  match h.wristY with
  | none => (ts, [])
  | some wy =>
    let ts := { ts with prevRight := { ts.prevRight with yPosition := wy } }
    if shouldAudio then
      let r := getNoteFromPosition (.num wy) ts.config ts.lastRightHandY
      let ts := { ts with lastRightHandY := r.2 }
      let note := r.1
      if some note ≠ ts.prevRight.note ∨ 9/500 < |wy - ts.prevRight.yPosition| then
        match playMelodyNote okSynth ts.engine (some note) (some wy) inp.now
            inp.toneNow with
        | .ok (eng, evs) =>
          ({ ts with
              engine := eng
              prevRight := { ts.prevRight with note := some note } }, evs)
        | .error _ => (ts, [])
      else (ts, [])
    else (ts, [])

/-- The other branch of the per-hand loop (lines 173-210): drives the left
hand / harmony axis. -/
def processLeftHand (ts : TrackerState) (h : HandSample) (shouldAudio : Bool)
    (inp : TickInput) : TrackerState × List SynthEvent :=
  let ts := { ts with isLeftHandPresent := true }
  match h.wristY with
  | none => (ts, [])
  | some wy =>
    let ts := { ts with prevLeft := { ts.prevLeft with yPosition := wy } }
    if shouldAudio then
      let r := getChordFromPosition (.num wy) false ts.config ts.lastLeftHandY
      let ts := { ts with lastLeftHandY := r.2 }
      let chord := r.1
      let chordChanged :=
        ts.prevLeft.note.isNone ||
        (match ts.prevLeft.note with
         | some pc => chord.name != pc.name
         | none => true) ||
        decide (27/1000 < |wy - ts.prevLeft.lastSignificantY|)
      if chordChanged then
        match playChord okSynth ts.engine (some chord) (some wy) inp.now
            inp.toneNow with
        | .ok (eng, evs) =>
          ({ ts with
              engine := eng
              prevLeft := { ts.prevLeft with
                note := some chord, lastSignificantY := wy } }, evs)
        | .error _ => (ts, [])
      else (ts, [])
    else (ts, [])

/-- handTracker.js `onHandResults`, audio-relevant part. Presence flags are
cleared, re-set per detected hand, and the end-of-function block (lines
241-249) stops an axis whose presence flag dropped this tick; when no hand at
all is detected, the dedicated branch (lines 228-239) already stops both
(those stops are idempotent). -/
def tick (ts : TrackerState) (inp : TickInput) : TrackerState × List SynthEvent :=
  let ts :=
    if inp.startAudio then
      { ts with engine :=
        { ts.engine with audio := { ts.engine.audio with audioStarted := true } } }
    else ts
  let wasLeft := ts.isLeftHandPresent
  let wasRight := ts.isRightHandPresent
  let ts := { ts with isLeftHandPresent := false, isRightHandPresent := false }
  let handDetected := inp.right.isSome || inp.left.isSome
  let main : TrackerState × List SynthEvent :=
    if handDetected then
      let ts := { ts with initialHandDetected := true }
      let shouldAudio := decide (20 < inp.perfNow - ts.lastAudioUpdate)
      let p1 : TrackerState × List SynthEvent :=
        match inp.right with
        | some h => processRightHand ts h shouldAudio inp
        | none => (ts, [])
      let p2 : TrackerState × List SynthEvent :=
        match inp.left with
        | some h => processLeftHand p1.1 h shouldAudio inp
        | none => (p1.1, [])
      let ts2 :=
        if shouldAudio then { p2.1 with lastAudioUpdate := inp.perfNow }
        else p2.1
      (ts2, p1.2 ++ p2.2)
    else
      let ts := { ts with initialHandDetected := false }
      let q1 : TrackerState × List SynthEvent :=
        if wasRight then
          let r := stopMelody ts.engine inp.toneNow
          ({ ts with engine := r.1, prevRight := {} }, r.2)
        else (ts, [])
      let q2 : TrackerState × List SynthEvent :=
        if wasLeft then
          let r := stopChord q1.1.engine inp.toneNow
          ({ q1.1 with engine := r.1, prevLeft := {} }, r.2)
        else (q1.1, [])
      (q2.1, q1.2 ++ q2.2)
  let e3 : TrackerState × List SynthEvent :=
    if ¬ main.1.isRightHandPresent ∧ wasRight then
      let r := stopMelody main.1.engine inp.toneNow
      ({ main.1 with engine := r.1, prevRight := {} }, r.2)
    else (main.1, [])
  let e4 : TrackerState × List SynthEvent :=
    if ¬ e3.1.isLeftHandPresent ∧ wasLeft then
      let r := stopChord e3.1.engine inp.toneNow
      ({ e3.1 with engine := r.1, prevLeft := {} }, r.2)
    else (e3.1, [])
  (e4.1, main.2 ++ e3.2 ++ e4.2)

/-- Runs a sequence of `onHandResults` ticks, collecting synthesizer calls. -/
def runTicks (ts : TrackerState) : List TickInput → TrackerState × List SynthEvent
  | [] => (ts, [])
  | i :: rest =>
    let r := tick ts i
    let r2 := runTicks r.1 rest
    (r2.1, r.2 ++ r2.2)

/-! Helper lemmas about the embedded primitives. -/

lemma calculateNoteFromMIDI_clamp (m : ℤ) :
    calculateNoteFromMIDI m = calculateNoteFromMIDI (max 0 (min 127 m)) := by
  have h : max 0 (min 127 (max 0 (min 127 m))) = max 0 (min 127 m) := by omega
  simp only [calculateNoteFromMIDI, h]

set_option maxRecDepth 40000 in
lemma parsePitch_calculate_Icc :
    ∀ k ∈ Finset.Icc (12 : ℤ) 127,
      parsePitch (calculateNoteFromMIDI k) = some k := by decide

set_option maxRecDepth 40000 in
lemma isValidPitch_calculate_Icc :
    ∀ k ∈ Finset.Icc (0 : ℤ) 127,
      isValidPitch (calculateNoteFromMIDI k) = true := by decide

lemma isValidPitch_calculate (m : ℤ) :
    isValidPitch (calculateNoteFromMIDI m) = true := by
  rw [calculateNoteFromMIDI_clamp]
  exact isValidPitch_calculate_Icc _ (by rw [Finset.mem_Icc]; omega)

lemma parsePitch_calculate (m : ℤ) (h : 12 ≤ m) :
    parsePitch (calculateNoteFromMIDI m) = some (min m 127) := by
  rw [calculateNoteFromMIDI_clamp]
  have e : max 0 (min 127 m) = min m 127 := by omega
  rw [e]
  exact parsePitch_calculate_Icc _ (by rw [Finset.mem_Icc]; omega)

lemma melodyOctave_bounds (cfg : Config) :
    2 ≤ melodyOctave cfg ∧ melodyOctave cfg ≤ 7 := by
  unfold melodyOctave
  omega

lemma chordOctaveOf_bounds (cfg : Config) :
    2 ≤ chordOctaveOf cfg ∧ chordOctaveOf cfg ≤ 6 := by
  unfold chordOctaveOf
  omega

set_option maxRecDepth 4000 in
lemma isValidPitch_root_oct :
    ∀ r ∈ notes, ∀ o ∈ Finset.Icc (1 : ℤ) 7,
      isValidPitch (r ++ toString o) = true := by decide

lemma getNoteNum_valid (vq : ℚ) (cfg : Config) (hroot : effRoot cfg ∈ notes) :
    isValidPitch (getNoteNum vq cfg) = true := by
  have hfb : isValidPitch (effRoot cfg ++ toString (melodyOctave cfg)) = true :=
    isValidPitch_root_oct _ hroot _
      (by rw [Finset.mem_Icc]; have := melodyOctave_bounds cfg; omega)
  have hfbC : isValidPitch ("C" ++ toString (melodyOctave cfg)) = true :=
    isValidPitch_root_oct _ (by simp [notes]) _
      (by rw [Finset.mem_Icc]; have := melodyOctave_bounds cfg; omega)
  unfold getNoteNum
  split
  · exact hfb
  · split
    · exact hfb
    · split
      · exact hfbC
      · exact isValidPitch_calculate _

/-- Claim C4 (amended): for every input `y` (a real number, NaN or a
non-number) and every configuration whose effective root
(`selectedRoot || 'C'`) is one of the twelve canonical note names,
`getNoteFromPosition` returns a syntactically valid pitch string (letter
A-G, optional '#', trailing integer octave); it never throws and never
returns undefined (it is a total function into `String`). With a malformed
root the NaN-induced invalid-semitones fallback embeds the malformed root
verbatim (see the counterexample). -/
theorem getNoteFromPosition_valid (y : JSVal) (cfg : Config) (l : JNum)
    (hroot : effRoot cfg ∈ notes) :
    isValidPitch (getNoteFromPosition y cfg l).1 = true := by
  have hfb : isValidPitch (effRoot cfg ++ toString (melodyOctave cfg)) = true :=
    isValidPitch_root_oct _ hroot _
      (by rw [Finset.mem_Icc]; have := melodyOctave_bounds cfg; omega)
  cases y with
  | num q => exact getNoteNum_valid _ _ hroot
  | nan => exact hfb
  | undef => exact getNoteNum_valid _ _ hroot

/-- Claim C4, counterexample to the claim as stated: with a NaN gesture
input and the malformed configured root "H", `getNoteFromPosition` hits the
invalid-semitones fallback and returns the string "H4", which is not a
syntactically valid pitch (letter A-G). -/
theorem getNoteFromPosition_invalid_cex :
    (getNoteFromPosition JSVal.nan ⟨"major", "H", some 4⟩ (JNum.num 0)).1 = "H4"
    ∧ isValidPitch "H4" = false := by
  constructor
  · rfl
  · decide

/-- Claim C4, witness for the amended theorem at a concrete input. -/
theorem getNoteFromPosition_valid_witness :
    isValidPitch
      (getNoteFromPosition (JSVal.num (1/2)) ⟨"major", "C", some 4⟩
        (JNum.num 0)).1 = true :=
  getNoteFromPosition_valid _ _ _ (by decide)

/-- Claim C9, counterexample: a call to each quantizer with `y = 1` from the
module state `lastRightHandY = lastLeftHandY = 0` overwrites that module
state with the clamped input (the functions are not free of side effects:
they write `lastRightHandY` / `lastLeftHandY` on every call). -/
theorem quantizer_state_write_cex :
    (getNoteFromPosition (JSVal.num 1) ⟨"major", "C", some 4⟩
        (JNum.num 0)).2 ≠ JNum.num 0 ∧
    (getChordFromPosition (JSVal.num 1) false ⟨"major", "C", some 4⟩
        (JNum.num 0)).2 ≠ JNum.num 0 := by
  with_unfolding_all decide

/-- Claim C9 (amended): both quantizers are deterministic in `y` and the
configuration — their returned note/chord does not depend on the module
variables `lastRightHandY`/`lastLeftHandY` — but each call does write the
clamped input into that module variable (last two conjuncts), so they are
not free of side effects. -/
theorem quantizer_deterministic (y : JSVal) (u : Bool) (cfg : Config)
    (l l' : JNum) :
    (getNoteFromPosition y cfg l).1 = (getNoteFromPosition y cfg l').1 ∧
    (getChordFromPosition y u cfg l).1 = (getChordFromPosition y u cfg l').1 ∧
    (getNoteFromPosition y cfg l).2 = jmax (.num 0) (jmin (.num 1) (coerceY y)) ∧
    (getChordFromPosition y u cfg l).2 = jmax (.num 0) (jmin (.num 1) (coerceY y)) := by
  cases y <;> exact ⟨rfl, rfl, rfl, rfl⟩

/-- Claim C8, counterexample to the claim as stated: the pentatonic scale
contains the entry 12, which is outside the chord range 0-11, yet
`getChordFromPosition` at `y = 0.5` returns a normal chord (`error = false`),
not the fallback — a configuration merely containing an out-of-range entry
does not make the function return the fallback for all `y`. -/
theorem getChord_fallback_cex :
    (∃ s ∈ scaleFor "pentatonic", s < 0 ∨ 11 < s) ∧
    (getChordFromPosition (JSVal.num (1/2)) false ⟨"pentatonic", "C", some 4⟩
        (JNum.num 0)).1.error = false ∧
    (getChordFromPosition (JSVal.num (1/2)) false ⟨"pentatonic", "C", some 4⟩
        (JNum.num 0)).1.name = "Em" := by
  with_unfolding_all decide

/-- Claim C8 (amended): the fallback fires exactly when the entry *selected*
by the computed index is out of range: if the scale entry at the computed
chord scale degree is outside 0-11, `getChordFromPosition` returns the
fallback chord (never throwing); and if the melody-path entry at the
computed index is outside 0-12 (or the lookup is undefined),
`getNoteFromPosition`'s real-y path returns its configured-root fallback.
A configuration merely containing a bad entry at an unselected index
returns a normal result (see the counterexample). -/
theorem getChord_invalid_entry_fallback (cfg : Config) (u : Bool) (vq : ℚ)
    (l : JNum) (d : ℤ) (h0 : 0 ≤ vq) (h1 : vq ≤ 1)
    (hd : chordDegreeOffset cfg vq = some d) (hout : d < 0 ∨ 11 < d) :
    ((getChordFromPosition (JSVal.num vq) u cfg l).1 =
      createFallbackChord (effRoot cfg) (chordOctaveOf cfg) ∧
     (getChordFromPosition (JSVal.num vq) u cfg l).1.error = true) ∧
    (∀ s : ℤ, noteSemitones cfg vq = some s → s < 0 ∨ 12 < s →
      getNoteNum vq cfg = effRoot cfg ++ toString (melodyOctave cfg)) := by
  have hcl : max 0 (min 1 vq) = vq := by
    rw [min_eq_right h1, max_eq_right h0]
  have hred : (getChordFromPosition (JSVal.num vq) u cfg l).1 =
      getChordNum vq u cfg (.num vq) := by
    show getChordNum (max 0 (min 1 vq)) u cfg (.num (max 0 (min 1 vq))) =
      getChordNum vq u cfg (.num vq)
    rw [hcl]
  have hmain : getChordNum vq u cfg (.num vq) =
      createFallbackChord (effRoot cfg) (chordOctaveOf cfg) := by
    unfold getChordNum
    split
    · rfl
    · rw [hd]
      simp only [if_pos hout]
  refine ⟨⟨by rw [hred, hmain], by rw [hred, hmain]; rfl⟩, ?_⟩
  intro s hs hsout
  unfold getNoteNum
  rw [hs]
  simp only [if_pos hsout]

lemma parsePitch_calculate_of_le (m : ℤ) (h12 : 12 ≤ m) (h127 : m ≤ 127) :
    parsePitch (calculateNoteFromMIDI m) = some m := by
  rw [parsePitch_calculate m h12, min_eq_left h127]

lemma jsIndexOf_notes_bound (root : String) (h : root ∈ notes) :
    0 ≤ jsIndexOf notes root ∧ jsIndexOf notes root ≤ 11 := by
  fin_cases h <;> decide

lemma pairwise_lt_headI_le (l : List String)
    (hp : List.Pairwise
      (fun a b => (parsePitch a).getD 0 < (parsePitch b).getD 0) l) :
    ∀ n ∈ l, (parsePitch l.headI).getD 0 ≤ (parsePitch n).getD 0 := by
  cases l with
  | nil => intro n hn; simp at hn
  | cons x rest =>
    intro n hn
    rcases List.mem_cons.mp hn with h | h
    · subst h; exact le_refl _
    · exact le_of_lt ((List.pairwise_cons.mp hp).1 n h)

/-- Claim C10: a chord built by `createChord` from a chord-type key whose
interval list is strictly increasing with entries in 0-24 (all eight table
entries qualify), a valid root, and an octave at most 7 (the callers pass
1-5), has its `notes` in strictly ascending MIDI order, so its first element
is its lowest (bass) note; and `createFallbackChord` does not guarantee this
ordering (for root "A" the pitch-class wrap-around produces A4, C#4, E4). -/
theorem createChord_ascending :
    (∀ (key : String) (intervals : List ℤ) (root : String) (octave : ℤ)
        (l : JNum),
      chordTypesLookup key = some intervals →
      List.Chain' (· < ·) intervals →
      (∀ i ∈ intervals, 0 ≤ i ∧ i ≤ 24) →
      root ∈ notes → octave ≤ 7 →
      (∀ n ∈ (createChord root key octave l).notes,
        (parsePitch n).isSome = true) ∧
      List.Chain' (fun a b => (parsePitch a).getD 0 < (parsePitch b).getD 0)
        (createChord root key octave l).notes ∧
      ∀ n ∈ (createChord root key octave l).notes,
        (parsePitch ((createChord root key octave l).notes.headI)).getD 0 ≤
          (parsePitch n).getD 0) ∧
    ¬ List.Chain' (fun a b => (parsePitch a).getD 0 < (parsePitch b).getD 0)
        (createFallbackChord "A" 4).notes := by
  constructor
  · intro key intervals root octave l hlk hchain hbnd hroot hoct
    have hidx := jsIndexOf_notes_bound root hroot
    have hne : ¬ jsIndexOf notes root = -1 := by omega
    have hbase12 : 12 ≤ 12 * max 1 octave + jsIndexOf notes root := by
      have : 1 ≤ max 1 octave := le_max_left 1 octave
      omega
    have hbase95 : 12 * max 1 octave + jsIndexOf notes root ≤ 95 := by
      have : max 1 octave ≤ 7 := by omega
      omega
    have hfil : intervals.filter (fun i => decide (0 ≤ i ∧ i ≤ 24)) = intervals :=
      List.filter_eq_self.mpr (fun a ha => by
        have := hbnd a ha
        simp [this.1, this.2])
    have hccn : createChordNotes (12 * max 1 octave + jsIndexOf notes root)
        intervals =
        intervals.map (fun i =>
          calculateNoteFromMIDI (12 * max 1 octave + jsIndexOf notes root + i)) := by
      unfold createChordNotes
      rw [hfil]
    have hnotes : (createChord root key octave l).notes =
        if createChordNotes (12 * max 1 octave + jsIndexOf notes root)
            intervals = [] then
          [calculateNoteFromMIDI (12 * max 1 octave + jsIndexOf notes root)]
        else
          createChordNotes (12 * max 1 octave + jsIndexOf notes root)
            intervals := by
      unfold createChord
      simp only [hlk]
      rw [if_neg hne]
    have hparse : ∀ i ∈ intervals,
        parsePitch (calculateNoteFromMIDI
          (12 * max 1 octave + jsIndexOf notes root + i)) =
          some (12 * max 1 octave + jsIndexOf notes root + i) := by
      intro i hi
      have := hbnd i hi
      exact parsePitch_calculate_of_le _ (by omega) (by omega)
    by_cases hempty : intervals = []
    · subst hempty
      simp only [hccn, List.map_nil, if_pos rfl] at hnotes
      rw [hnotes]
      refine ⟨?_, ?_, ?_⟩
      · intro n hn
        rcases List.mem_singleton.mp hn with rfl
        rw [parsePitch_calculate_of_le _ hbase12 (by omega)]
        rfl
      · exact List.chain'_singleton _
      · intro n hn
        rcases List.mem_singleton.mp hn with rfl
        exact le_refl _
    · have hmapne : intervals.map (fun i =>
          calculateNoteFromMIDI (12 * max 1 octave + jsIndexOf notes root + i))
          ≠ [] := by
        simpa using hempty
      rw [hccn] at hnotes
      rw [if_neg hmapne] at hnotes
      rw [hnotes]
      have hPairInt : List.Pairwise (· < ·) intervals :=
        List.chain'_iff_pairwise.mp hchain
      have hPairMapped : List.Pairwise
          (fun a b =>
            (parsePitch (calculateNoteFromMIDI
              (12 * max 1 octave + jsIndexOf notes root + a))).getD 0 <
            (parsePitch (calculateNoteFromMIDI
              (12 * max 1 octave + jsIndexOf notes root + b))).getD 0)
          intervals := by
        refine hPairInt.imp_of_mem (fun {a b} ha hb hlt => ?_)
        rw [hparse a ha, hparse b hb]
        simpa using hlt
      have hPair : List.Pairwise
          (fun a b => (parsePitch a).getD 0 < (parsePitch b).getD 0)
          (intervals.map (fun i =>
            calculateNoteFromMIDI (12 * max 1 octave + jsIndexOf notes root + i))) :=
        List.pairwise_map.mpr hPairMapped
      refine ⟨?_, hPair.chain', pairwise_lt_headI_le _ hPair⟩
      intro n hn
      rcases List.mem_map.mp hn with ⟨i, hi, rfl⟩
      rw [hparse i hi]
      rfl
  · intro hch
    have hn : (createFallbackChord "A" 4).notes = ["A4", "C#4", "E4"] := by
      decide
    rw [hn] at hch
    have h1 := (List.chain'_cons.mp hch).1
    have ha : (parsePitch "A4").getD 0 = 69 := by decide
    have hb : (parsePitch "C#4").getD 0 = 61 := by decide
    rw [ha, hb] at h1
    omega

/-- Claim C10, witness: the C major triad at octave 3. -/
theorem createChord_ascending_witness :
    List.Chain' (fun a b => (parsePitch a).getD 0 < (parsePitch b).getD 0)
      (createChord "C" "major" 3 (JNum.num 0)).notes :=
  (createChord_ascending.1 "major" [0, 4, 7] "C" 3 (JNum.num 0)
    (by decide)
    (List.chain'_cons.mpr ⟨by norm_num,
      List.chain'_cons.mpr ⟨by norm_num, List.chain'_singleton _⟩⟩)
    (by decide) (by decide) (by decide)).2.1

/-- The semitone contribution of an integer position: the scale entry at
`position % scaleLength` plus 12 per wrapped octave
(`Math.floor(position / scaleLength)`). `getNoteFromPosition`'s MIDI number
is a constant (root and configured octave) plus this. -/
def scaleStep (a : List ℤ) (p : ℤ) : ℤ :=
  (jsGet a (Int.tmod p (a.length : ℤ))).getD 0 + 12 * Int.fdiv p (a.length : ℤ)

/-- The properties of a scale array that make the melody mapping monotone
with at most one octave per position step, over positions `0..T-1`. -/
def scaleOk (a : List ℤ) (t : ℤ) : Prop :=
  a ≠ [] ∧ (∀ s ∈ a, 0 ≤ s ∧ s ≤ 12) ∧
  ∀ p ∈ Finset.Icc (0 : ℤ) (t - 2),
    scaleStep a p ≤ scaleStep a (p + 1) ∧
    scaleStep a (p + 1) - scaleStep a p ≤ 12

set_option maxRecDepth 40000 in
lemma scaleOk_all (cfg : Config) :
    scaleOk (scaleFor (effScaleName cfg)) (totalRangeFor cfg) := by
  unfold scaleOk scaleStep totalRangeFor scaleFor
  split_ifs <;> decide

lemma totalRangeFor_ge (cfg : Config) : 14 ≤ totalRangeFor cfg :=
  le_max_left _ _

lemma stepwise_mono_aux (g : ℤ → ℤ) (lo hi : ℤ)
    (h : ∀ p, lo ≤ p → p + 1 ≤ hi → g p ≤ g (p + 1)) (a : ℤ) (ha : lo ≤ a) :
    ∀ n : ℕ, a + n ≤ hi → g a ≤ g (a + n) := by
  intro n
  induction n with
  | zero => intro _; simp
  | succ k ih =>
    intro hle
    have hcast : a + ((k + 1 : ℕ) : ℤ) = a + (k : ℕ) + 1 := by push_cast; ring
    rw [hcast]
    rw [hcast] at hle
    exact le_trans (ih (by omega)) (h (a + k) (by omega) hle)

lemma stepwise_mono (g : ℤ → ℤ) (lo hi : ℤ)
    (h : ∀ p, lo ≤ p → p + 1 ≤ hi → g p ≤ g (p + 1)) :
    ∀ a b, lo ≤ a → a ≤ b → b ≤ hi → g a ≤ g b := by
  intro a b ha hab hb
  have hn : b = a + ((b - a).toNat : ℤ) := by omega
  rw [hn]
  exact stepwise_mono_aux g lo hi h a ha (b - a).toNat (by omega)

lemma notePosition_eq (cfg : Config) (vq : ℚ) :
    notePosition cfg vq =
      ⌊(1 - max 0 (min 1 vq)) * ((totalRangeFor cfg - 1 : ℤ) : ℚ)⌋ := by
  unfold notePosition mapRange
  rw [if_neg (by norm_num : (0 : ℚ) ≠ 1)]
  congr 1
  ring

lemma clamp01_bounds (vq : ℚ) : 0 ≤ max 0 (min 1 vq) ∧ max 0 (min 1 vq) ≤ 1 := by
  constructor
  · exact le_max_left 0 _
  · rcases le_total 1 vq with h | h
    · simp [min_eq_left h]
    · calc max 0 (min 1 vq) ≤ max 0 1 := by
            apply max_le_max_left
            exact min_le_left 1 vq
        _ = 1 := by norm_num

lemma notePosition_bounds (cfg : Config) (vq : ℚ) :
    0 ≤ notePosition cfg vq ∧ notePosition cfg vq ≤ totalRangeFor cfg - 1 := by
  rw [notePosition_eq]
  have hT : (13 : ℚ) ≤ ((totalRangeFor cfg - 1 : ℤ) : ℚ) := by
    have h14 := totalRangeFor_ge cfg
    exact_mod_cast (by omega : (13 : ℤ) ≤ totalRangeFor cfg - 1)
  have hc := clamp01_bounds vq
  constructor
  · apply Int.le_floor.mpr
    rw [Int.cast_zero]
    apply mul_nonneg (by linarith [hc.2]) (by linarith)
  · have hle : (1 - max 0 (min 1 vq)) * ((totalRangeFor cfg - 1 : ℤ) : ℚ) ≤
        ((totalRangeFor cfg - 1 : ℤ) : ℚ) := by
      nlinarith [hc.1, hc.2]
    calc ⌊(1 - max 0 (min 1 vq)) * ((totalRangeFor cfg - 1 : ℤ) : ℚ)⌋
        ≤ ⌊((totalRangeFor cfg - 1 : ℤ) : ℚ)⌋ := Int.floor_le_floor hle
      _ = totalRangeFor cfg - 1 := Int.floor_intCast _

lemma notePosition_antitone (cfg : Config) (q1 q2 : ℚ) (h : q1 ≤ q2) :
    notePosition cfg q2 ≤ notePosition cfg q1 := by
  rw [notePosition_eq, notePosition_eq]
  apply Int.floor_le_floor
  have hT : (0 : ℚ) ≤ ((totalRangeFor cfg - 1 : ℤ) : ℚ) := by
    have h14 := totalRangeFor_ge cfg
    exact_mod_cast (by omega : (0 : ℤ) ≤ totalRangeFor cfg - 1)
  have hcl : max 0 (min 1 q1) ≤ max 0 (min 1 q2) := by
    apply max_le_max_left
    exact min_le_min_left 1 h
  nlinarith

lemma jsGet_some_mem (l : List ℤ) (i : ℤ) (h0 : 0 ≤ i) (hlt : i < l.length) :
    ∃ s, jsGet l i = some s ∧ s ∈ l := by
  unfold jsGet
  rw [if_pos h0]
  have hn : i.toNat < l.length := by omega
  rw [List.get?_eq_get hn]
  exact ⟨_, rfl, List.get_mem _ _ _⟩

/-- For a valid effective root, the melody quantizer takes its main branch
and the produced MIDI number decomposes as a configuration constant plus the
position's `scaleStep`. -/
lemma getNoteNum_main (cfg : Config) (vq : ℚ)
    (hroot : ¬ jsIndexOf notes (effRoot cfg) = -1) :
    getNoteNum vq cfg =
      calculateNoteFromMIDI
        (60 + jsIndexOf notes (effRoot cfg) +
          (melodyOctave cfg - 4) * 12 +
          scaleStep (scaleFor (effScaleName cfg)) (notePosition cfg vq)) ∧
    0 ≤ scaleStep (scaleFor (effScaleName cfg)) (notePosition cfg vq) := by
  obtain ⟨hne, hent, _⟩ := scaleOk_all cfg
  have hlen : 0 < ((scaleFor (effScaleName cfg)).length : ℤ) := by
    cases hl : scaleFor (effScaleName cfg) with
    | nil => exact absurd hl hne
    | cons a as => simp [hl]
  have hp0 : 0 ≤ notePosition cfg vq := (notePosition_bounds cfg vq).1
  have hi0 : 0 ≤ Int.tmod (notePosition cfg vq)
      ((scaleFor (effScaleName cfg)).length : ℤ) :=
    Int.tmod_nonneg _ hp0
  have hilt : Int.tmod (notePosition cfg vq)
      ((scaleFor (effScaleName cfg)).length : ℤ) <
      ((scaleFor (effScaleName cfg)).length : ℤ) :=
    Int.tmod_lt_of_pos _ hlen
  obtain ⟨s, hs, hmem⟩ := jsGet_some_mem _ _ hi0 (by exact_mod_cast hilt)
  have hsb := hent s hmem
  have hsem : noteSemitones cfg vq = some s := hs
  have hoff0 : 0 ≤ noteOctaveOffset cfg vq := Int.fdiv_nonneg hp0 (by omega)
  have hstep : scaleStep (scaleFor (effScaleName cfg)) (notePosition cfg vq) =
      s + 12 * noteOctaveOffset cfg vq := by
    unfold scaleStep
    rw [hs]
    rfl
  constructor
  · unfold getNoteNum
    simp only [hsem]
    rw [if_neg (by omega : ¬ (s < 0 ∨ 12 < s))]
    rw [if_neg hroot]
    congr 1
    rw [hstep]
    ring
  · rw [hstep]
    omega

lemma jsIndexOfFrom_bound (l : List String) (s : String) :
    ∀ i : ℤ, jsIndexOfFrom l s i = -1 ∨
      (i ≤ jsIndexOfFrom l s i ∧ jsIndexOfFrom l s i < i + l.length) := by
  induction l with
  | nil => intro i; left; rfl
  | cons a rest ih =>
    intro i
    unfold jsIndexOfFrom
    split_ifs with h
    · right
      refine ⟨le_refl i, ?_⟩
      have hpos : (0 : ℤ) < ((a :: rest).length : ℤ) := by
        push_cast [List.length_cons]
        omega
      omega
    · rcases ih (i + 1) with h1 | h1
      · left; exact h1
      · right
        have hl : ((a :: rest).length : ℤ) = (rest.length : ℤ) + 1 := by
          push_cast [List.length_cons]
          ring
        omega

lemma jsIndexOf_cases (l : List String) (s : String) :
    jsIndexOf l s = -1 ∨
      (0 ≤ jsIndexOf l s ∧ jsIndexOf l s < (l.length : ℤ)) := by
  unfold jsIndexOf
  rcases jsIndexOfFrom_bound l s 0 with h | h
  · left; exact h
  · right; omega

lemma parsePitch_C_oct (cfg : Config) :
    ∃ mo, parsePitch ("C" ++ toString (melodyOctave cfg)) = some mo := by
  obtain ⟨hb1, hb2⟩ := melodyOctave_bounds cfg
  set o := melodyOctave cfg with ho
  interval_cases o <;> exact ⟨_, rfl⟩

lemma jsSetOf_go_mem (l : List String) :
    ∀ (acc : List String) (x : String),
      (x ∈ l.foldl (fun acc n => if acc.contains n then acc else acc ++ [n]) acc
        ↔ x ∈ acc ∨ x ∈ l) := by
  induction l with
  | nil => intro acc x; simp
  | cons a rest ih =>
    intro acc x
    simp only [List.foldl_cons]
    by_cases h : acc.contains a
    · rw [if_pos h]
      rw [ih]
      have ha : a ∈ acc := List.elem_iff.mp h
      constructor
      · rintro (h1 | h1)
        · exact Or.inl h1
        · exact Or.inr (List.mem_cons_of_mem _ h1)
      · rintro (h1 | h1)
        · exact Or.inl h1
        · rcases List.mem_cons.mp h1 with rfl | h2
          · exact Or.inl ha
          · exact Or.inr h2
    · rw [if_neg h]
      rw [ih]
      simp only [List.mem_append, List.mem_singleton, List.mem_cons]
      tauto

lemma jsSetOf_mem (l : List String) (x : String) :
    x ∈ jsSetOf l ↔ x ∈ l := by
  unfold jsSetOf
  rw [jsSetOf_go_mem]
  simp

lemma jsSetOf_go_nodup (l : List String) :
    ∀ acc : List String, acc.Nodup →
      (l.foldl (fun acc n => if acc.contains n then acc else acc ++ [n])
        acc).Nodup := by
  induction l with
  | nil => intro acc h; simpa using h
  | cons a rest ih =>
    intro acc h
    simp only [List.foldl_cons]
    by_cases hc : acc.contains a
    · rw [if_pos hc]
      exact ih acc h
    · rw [if_neg hc]
      apply ih
      have ha : a ∉ acc := fun hmem => hc (List.elem_iff.mpr hmem)
      simp [List.nodup_append, h, ha]

lemma jsSetOf_nodup (l : List String) : (jsSetOf l).Nodup :=
  jsSetOf_go_nodup l [] List.nodup_nil

lemma jsSetOf_go_eq (l : List String) :
    ∀ acc : List String, (acc ++ l).Nodup →
      l.foldl (fun acc n => if acc.contains n then acc else acc ++ [n]) acc =
        acc ++ l := by
  induction l with
  | nil => intro acc _; simp
  | cons a rest ih =>
    intro acc h
    have ha : a ∉ acc := by
      intro hmem
      have := List.disjoint_of_nodup_append h
      exact this hmem (List.mem_cons_self a rest)
    simp only [List.foldl_cons]
    rw [if_neg (fun hc => ha (List.elem_iff.mp hc))]
    rw [ih (acc ++ [a]) (by simpa using h)]
    simp

lemma jsSetOf_eq_self (l : List String) (h : l.Nodup) : jsSetOf l = l := by
  unfold jsSetOf
  rw [jsSetOf_go_eq l [] (by simpa using h)]
  simp

lemma nodup_length_le_of_subset (l1 l2 : List String) (h1 : l1.Nodup)
    (hs : ∀ x ∈ l1, x ∈ l2) : l1.length ≤ l2.length := by
  calc l1.length = l1.toFinset.card := (List.toFinset_card_of_nodup h1).symm
    _ ≤ l2.toFinset.card := by
        apply Finset.card_le_card
        intro x hx
        rw [List.mem_toFinset] at hx ⊢
        exact hs x hx
    _ ≤ l2.length := List.toFinset_card_le l2

lemma mem_notesToReleaseOf (prev target : List String) (x : String) :
    x ∈ notesToReleaseOf prev target ↔ x ∈ prev ∧ x ∉ target := by
  unfold notesToReleaseOf
  simp [List.mem_filter]

lemma mem_notesToAttackOf (prev target : List String) (x : String) :
    x ∈ notesToAttackOf prev target ↔ x ∈ target ∧ x ∉ prev := by
  unfold notesToAttackOf
  simp [List.mem_filter]

lemma mem_notesThatContinueOf (prev target : List String) (x : String) :
    x ∈ notesThatContinueOf prev target ↔ x ∈ prev ∧ x ∈ target := by
  unfold notesThatContinueOf
  simp [List.mem_filter]

lemma mem_finalNotesForStateOf (prev target : List String) (x : String) :
    x ∈ finalNotesForStateOf prev target ↔ x ∈ target := by
  unfold finalNotesForStateOf
  rw [jsSetOf_mem, List.mem_append, mem_notesThatContinueOf,
    mem_notesToAttackOf]
  tauto

lemma finalNotesForStateOf_nodup (prev target : List String) :
    (finalNotesForStateOf prev target).Nodup :=
  jsSetOf_nodup _

lemma eq_singleton_of_mem_iff {l : List String} {b : String} (hn : l.Nodup)
    (h : ∀ x, x ∈ l ↔ x = b) : l = [b] := by
  cases l with
  | nil => exact absurd ((h b).mpr rfl) (List.not_mem_nil b)
  | cons a rest =>
    have ha : a = b := (h a).mp (List.mem_cons_self a rest)
    subst ha
    cases rest with
    | nil => rfl
    | cons c cs =>
      have hc : c = a :=
        (h c).mp (List.mem_cons_of_mem _ (List.mem_cons_self c cs))
      rw [hc] at hn
      simp at hn

lemma bassFold_mem (rest : List String) :
    ∀ a : String,
      rest.foldl (fun bass currentNote =>
        if (parsePitch currentNote).getD 0 < (parsePitch bass).getD 0 then
          currentNote
        else bass) a = a ∨
      rest.foldl (fun bass currentNote =>
        if (parsePitch currentNote).getD 0 < (parsePitch bass).getD 0 then
          currentNote
        else bass) a ∈ rest := by
  induction rest with
  | nil => intro a; left; rfl
  | cons bb bs ih =>
    intro a
    simp only [List.foldl_cons]
    rcases ih (if (parsePitch bb).getD 0 < (parsePitch a).getD 0 then bb
        else a) with h | h
    · rw [h]
      split_ifs with hc
      · right; exact List.mem_cons_self _ _
      · left; rfl
    · right; exact List.mem_cons_of_mem _ h

lemma bassFold_min (rest : List String) :
    ∀ a : String,
      (parsePitch (rest.foldl (fun bass currentNote =>
        if (parsePitch currentNote).getD 0 < (parsePitch bass).getD 0 then
          currentNote
        else bass) a)).getD 0 ≤ (parsePitch a).getD 0 ∧
      ∀ x ∈ rest,
        (parsePitch (rest.foldl (fun bass currentNote =>
          if (parsePitch currentNote).getD 0 < (parsePitch bass).getD 0 then
            currentNote
          else bass) a)).getD 0 ≤ (parsePitch x).getD 0 := by
  induction rest with
  | nil =>
    intro a
    exact ⟨le_refl _, fun x hx => absurd hx (List.not_mem_nil x)⟩
  | cons bb bs ih =>
    intro a
    simp only [List.foldl_cons]
    obtain ⟨h1, h2⟩ := ih (if (parsePitch bb).getD 0 < (parsePitch a).getD 0
      then bb else a)
    have hfa : (parsePitch (if (parsePitch bb).getD 0 < (parsePitch a).getD 0
        then bb else a)).getD 0 ≤ (parsePitch a).getD 0 ∧
        (parsePitch (if (parsePitch bb).getD 0 < (parsePitch a).getD 0
        then bb else a)).getD 0 ≤ (parsePitch bb).getD 0 := by
      split_ifs with hc
      · exact ⟨le_of_lt hc, le_refl _⟩
      · exact ⟨le_refl _, le_of_not_lt hc⟩
    refine ⟨le_trans h1 hfa.1, fun x hx => ?_⟩
    rcases List.mem_cons.mp hx with rfl | hx2
    · exact le_trans h1 hfa.2
    · exact h2 x hx2

lemma getBassNote_spec (l : List String) (hne : l ≠ []) :
    ∃ b, getBassNote l = some b ∧ b ∈ l ∧
      ((∀ s ∈ l, (parsePitch s).isSome = true) →
        ∀ x ∈ l, (parsePitch b).getD 0 ≤ (parsePitch x).getD 0) := by
  match l with
  | [] => exact absurd rfl hne
  | [n] =>
    refine ⟨n, rfl, List.mem_singleton_self n, fun _ x hx => ?_⟩
    rw [List.mem_singleton.mp hx]
  | n :: m :: rest =>
    have hdef : getBassNote (n :: m :: rest) =
        if ((n :: m :: rest).all fun s => (parsePitch s).isSome) = true then
          some (List.foldl (fun bass currentNote =>
            if (parsePitch currentNote).getD 0 < (parsePitch bass).getD 0 then
              currentNote
            else bass) n (m :: rest))
        else some n := rfl
    rw [hdef]
    split_ifs with hall
    · refine ⟨_, rfl, ?_, fun _ x hx => ?_⟩
      · rcases bassFold_mem (m :: rest) n with h | h
        · rw [h]; exact List.mem_cons_self _ _
        · exact List.mem_cons_of_mem _ h
      · obtain ⟨h1, h2⟩ := bassFold_min (m :: rest) n
        rcases List.mem_cons.mp hx with rfl | hx2
        · exact h1
        · exact h2 x hx2
    · refine ⟨n, rfl, List.mem_cons_self _ _, fun hps => ?_⟩
      exact absurd (List.all_eq_true.mpr (fun s hs => hps s hs)) hall

/-- Claim C5 (amended): `playMelodyNote` wraps all its synthesizer calls in
a try/catch, so a facade throw never escapes it — it always returns
normally, whatever the facade does; the polyphony-managed `playChord`, by
contrast, has no try/catch and propagates facade throws (see the
counterexample theorem). -/
theorem playMelodyNote_absorbs (b : SynthBehavior) (st : EngineState)
    (note : Option String) (hp : Option ℚ) (now : ℤ) (tone : ℚ) :
    (playMelodyNote b st note hp now tone).isOk = true := by
  cases note with
  | none => rfl
  | some n =>
    show (if ¬ st.audio.audioStarted ∨ n = "" then
        (Except.ok (st, []) : Except Unit (EngineState × List SynthEvent))
      else
        playMelodyNoteGated b
          { st with movementMelody :=
              (updateMovementTracking st.movementMelody (hp.getD (1/2))
                now).1 }
          n
          (updateMovementTracking st.movementMelody (hp.getD (1/2)) now).2
          now tone).isOk = true
    split_ifs with hg
    · rfl
    · unfold playMelodyNoteGated
      split_ifs <;> rfl

/-- A state in which one harmony note is sounding (used to exhibit the
uncaught facade throw in `playChord`). -/
def prevPlayingState : EngineState :=
  { initEngineState true with
      audio := { (initEngineState true).audio with
        leftHandIsPlaying := true
        currentChord :=
          some { root := "C", type := "major", notes := ["C3"], name := "C" } } }

/-- The E minor triad used as the next target chord. -/
def emChord : Chord :=
  { root := "E", type := "minor", notes := ["E3", "G3", "B3"], name := "Em" }

/-- Claim C5, counterexample: when the facade throws on `triggerRelease`,
the exception escapes the polyphony-managed `playChord` (it has no
try/catch), so the claim that errors are absorbed at the call site inside
`playChord` is false. -/
theorem playChord_throw_propagates :
    (playChord ⟨false, true⟩ prevPlayingState (some emChord) (some (1/2))
      1000 0).isOk = false := by
  with_unfolding_all decide

/-- `playChord` on a nonempty chord reduces to the gated update (the match
and guards unfold definitionally). -/
lemma playChord_some_eq (b : SynthBehavior) (st : EngineState) (ch : Chord)
    (pos : Option ℚ) (now : ℤ) (tone : ℚ) :
    playChord b st (some ch) pos now tone =
      if ¬ st.audio.audioStarted then .ok (st, [])
      else if ch.notes.isEmpty then
        .ok (if st.audio.leftHandIsPlaying then
              stopChord (initHarmonyState st) tone
            else (initHarmonyState st, []))
      else
        playChordGated b
          { initHarmonyState st with movementHarmony :=
              (updateMovementTracking st.movementHarmony (pos.getD (1/2))
                now).1 }
          ch
          (updateMovementTracking st.movementHarmony (pos.getD (1/2)) now).2
          now tone := rfl

/-- Claim C6: whenever an update passes the throttling gate with measured
velocity above `BASS_ONLY_SPEED_THRESHOLD` (1.2), the allocator enters the
"moving" state, clears the settle timer, and the model's sounding set for
that update is exactly the chord's bass note — the note with the lowest
MIDI-equivalent value among the chord's notes (last conjunct, assuming all
notes are syntactically valid so `Tone.Frequency(...).toMidi()` does not
throw). -/
theorem playChord_moving_bass (st : EngineState) (ch : Chord) (pos : ℚ)
    (now : ℤ) (tone : ℚ)
    (hstart : st.audio.audioStarted = true)
    (hne : ch.notes ≠ [])
    (hch : chordEquals (some ch) st.lastChord = false)
    (htime : 80 < now - st.lastChordChangeTime)
    (hfast : (6 : ℚ)/5 < (updateMovementTracking st.movementHarmony pos now).2) :
    ∃ (st' : EngineState) (evs : List SynthEvent) (b : String),
      playChord okSynth st (some ch) (some pos) now tone = .ok (st', evs) ∧
      getBassNote ch.notes = some b ∧
      st'.audio.harmonyHandState = some HandState.moving ∧
      st'.audio.settleStartTime = none ∧
      st'.audio.currentChord = some { ch with notes := [b] } ∧
      ((∀ s ∈ ch.notes, (parsePitch s).isSome = true) →
        ∀ x ∈ ch.notes, (parsePitch b).getD 0 ≤ (parsePitch x).getD 0) := by
  obtain ⟨b, hb, hbmem, hbmin⟩ := getBassNote_spec ch.notes hne
  rw [playChord_some_eq]
  rw [if_neg (by simp [hstart])]
  rw [if_neg (by simpa using hne)]
  set st2 : EngineState :=
    { initHarmonyState st with movementHarmony :=
        (updateMovementTracking st.movementHarmony ((some pos).getD (1/2))
          now).1 } with hst2
  set vel : ℚ :=
    (updateMovementTracking st.movementHarmony ((some pos).getD (1/2)) now).2
    with hvel
  have hvel' : (6 : ℚ)/5 < vel := hfast
  have hfd : decide ((6 : ℚ)/5 < vel) = true := decide_eq_true hvel'
  have hch2 : chordEquals (some ch) st2.lastChord = false := hch
  have htime2 : decide (80 < now - st2.lastChordChangeTime) = true :=
    decide_eq_true htime
  unfold playChordGated
  rw [if_neg (by simp [hch2, htime2])]
  rw [hfd]
  have htgt : chordTargetNotes (st2.audio.harmonyHandState.getD .settled)
      st2.audio.settleStartTime now vel true ch.notes =
      (HandState.moving, none, [b]) := by
    unfold chordTargetNotes
    rw [if_pos rfl]
    rw [hb]
  rw [htgt]
  have hfinal : finalNotesForStateOf (jsSetOf (currentChordNotes st2)) [b] =
      [b] := by
    apply eq_singleton_of_mem_iff (finalNotesForStateOf_nodup _ _)
    intro x
    rw [mem_finalNotesForStateOf, List.mem_singleton]
  unfold playChordProcessed
  rw [if_neg (by simp [okSynth])]
  rw [if_neg (by simp [okSynth])]
  refine ⟨_, _, b, rfl, hb, rfl, rfl, ?_, fun hall x hx => hbmin hall x hx⟩
  show some { ch with notes :=
      finalNotesForStateOf (jsSetOf (currentChordNotes st2)) [b] } =
    some { ch with notes := [b] }
  rw [hfinal]

/-- Claim C6, witness: a C major chord arriving while the hand sweeps fast
(velocity 10) collapses to its bass note C3. -/
theorem playChord_moving_bass_witness :
    ∃ (st' : EngineState) (evs : List SynthEvent) (b : String),
      playChord okSynth
        { initEngineState true with movementHarmony := ⟨0, 900, 0⟩ }
        (some { root := "C", type := "major", notes := ["C3", "E3", "G3"],
                name := "C" })
        (some 1) 1000 0 = .ok (st', evs) ∧
      getBassNote ["C3", "E3", "G3"] = some b ∧
      st'.audio.harmonyHandState = some HandState.moving ∧
      st'.audio.settleStartTime = none ∧
      st'.audio.currentChord =
        some { root := "C", type := "major", notes := [b], name := "C" } ∧
      ((∀ s ∈ ["C3", "E3", "G3"], (parsePitch s).isSome = true) →
        ∀ x ∈ ["C3", "E3", "G3"],
          (parsePitch b).getD 0 ≤ (parsePitch x).getD 0) :=
  playChord_moving_bass
    { initEngineState true with movementHarmony := ⟨0, 900, 0⟩ }
    { root := "C", type := "major", notes := ["C3", "E3", "G3"], name := "C" }
    1 1000 0 rfl (by decide) (by decide) (by decide)
    (by with_unfolding_all decide)

lemma zip_self_all (l : List String) :
    ((l.zip l).all fun p => p.1 == p.2) = true := by
  induction l with
  | nil => rfl
  | cons a t ih => simp only [List.zip_cons_cons, List.all_cons, ih,
      beq_self_eq_true, Bool.and_self]

lemma chordEquals_self (c : Chord) : chordEquals (some c) (some c) = true := by
  have h : chordEquals (some c) (some c) =
      if c.name ≠ c.name then false
      else if c.notes.length ≠ c.notes.length then false
      else ((c.notes.mergeSort (fun a b => a ≤ b)).zip
          (c.notes.mergeSort (fun a b => a ≤ b))).all (fun p => p.1 == p.2) :=
    rfl
  rw [h, if_neg (by simp), if_neg (by simp)]
  exact zip_self_all _

/-- Whether a synthesizer call starts or stops the given harmony note
(`releaseAll` stops every note; melody-voice calls touch none). -/
def releasesOrAttacks (n : String) : SynthEvent → Prop
  | .attack ns _ _ => n ∈ ns
  | .release ns _ => n ∈ ns
  | .releaseAll _ => True
  | .melodyAttack _ _ _ => False
  | .melodySetNote _ _ => False
  | .melodyRelease _ => False

/-- `playChord` on a null chord reduces to the stop-or-idle branch. -/
lemma playChord_none_eq (b : SynthBehavior) (st : EngineState)
    (pos : Option ℚ) (now : ℤ) (tone : ℚ) :
    playChord b st none pos now tone =
      if ¬ st.audio.audioStarted then .ok (st, [])
      else .ok (if st.audio.leftHandIsPlaying then
            stopChord (initHarmonyState st) tone
          else (initHarmonyState st, [])) := rfl

lemma stopChord_spec (st : EngineState) (tone : ℚ) :
    ((stopChord st tone).2 = [] ∧
      (stopChord st tone).1.audio.currentChord = st.audio.currentChord) ∨
    (stopChord st tone).1.audio.currentChord = none := by
  unfold stopChord
  split_ifs <;> simp

lemma mem_actualNotesToAttackOf (prev target : List String) (x : String)
    (h : x ∈ actualNotesToAttackOf prev target) : x ∈ target ∧ x ∉ prev := by
  unfold actualNotesToAttackOf at h
  exact (mem_notesToAttackOf prev target x).mp (List.take_subset _ _ h)

lemma playChordProcessed_ok_legato (st : EngineState) (ch : Chord)
    (vel : ℚ) (hs' : HandState) (ss' : Option ℤ) (prev target : List String)
    (now : ℤ) (tone : ℚ) (st' : EngineState) (evs : List SynthEvent)
    (n : String)
    (hok : playChordProcessed okSynth st ch vel hs' ss' prev target now tone
      = .ok (st', evs))
    (hprev : n ∈ prev) (hpost : n ∈ currentChordNotes st') :
    ∀ ev ∈ evs, ¬ releasesOrAttacks n ev := by
  unfold playChordProcessed at hok
  rw [if_neg (fun hc => absurd hc.2 (by decide))] at hok
  rw [if_neg (fun hc => absurd hc.2 (by decide))] at hok
  injection hok with h
  injection h with h1 h2
  subst h1
  subst h2
  have hpost' : n ∈ target := (mem_finalNotesForStateOf prev target n).mp hpost
  intro ev hev
  rcases List.mem_append.mp hev with hre | hat
  · unfold releaseEventsOf at hre
    split at hre
    · rw [List.mem_singleton.mp hre]
      intro htouch
      exact ((mem_notesToReleaseOf prev target n).mp htouch).2 hpost'
    · exact absurd hre (List.not_mem_nil ev)
  · unfold attackEventsOf at hat
    split at hat
    · rw [List.mem_singleton.mp hat]
      intro htouch
      exact (mem_actualNotesToAttackOf prev target n htouch).2 hprev
    · exact absurd hat (List.not_mem_nil ev)

/-- Claim C2: (a) legato/no-retrigger — on every chord update, a note that
was in the previously sounding model and is still in the new model receives
no synthesizer call at all (only `toRelease` and `toAttack` notes are
mentioned in calls); (b) idempotence — feeding the allocator a chord it
already holds as `lastChord` (as after any processed update of that chord)
produces no attack/release calls. -/
theorem playChord_legato :
    (∀ (st : EngineState) (chord : Option Chord) (pos : Option ℚ) (now : ℤ)
        (tone : ℚ) (st' : EngineState) (evs : List SynthEvent) (n : String),
      playChord okSynth st chord pos now tone = .ok (st', evs) →
      n ∈ currentChordNotes st → n ∈ currentChordNotes st' →
      ∀ ev ∈ evs, ¬ releasesOrAttacks n ev) ∧
    (∀ (st : EngineState) (c : Chord) (pos : Option ℚ) (now : ℤ) (tone : ℚ),
      st.lastChord = some c → c.notes ≠ [] →
      ∃ st', playChord okSynth st (some c) pos now tone = .ok (st', [])) := by
  constructor
  · intro st chord pos now tone st' evs n hok hprev hpost ev hev
    cases chord with
    | none =>
      rw [playChord_none_eq] at hok
      split at hok
      · injection hok with h
        injection h with h1 h2
        rw [← h2] at hev
        exact absurd hev (List.not_mem_nil ev)
      · injection hok with h
        split at h
        · rcases stopChord_spec (initHarmonyState st) tone with ⟨he, _⟩ | hnone
          · have h2 : (stopChord (initHarmonyState st) tone).2 = evs :=
              congrArg Prod.snd h
            rw [he] at h2
            rw [← h2] at hev
            exact absurd hev (List.not_mem_nil ev)
          · have h1 : (stopChord (initHarmonyState st) tone).1 = st' :=
              congrArg Prod.fst h
            rw [← h1] at hpost
            unfold currentChordNotes at hpost
            rw [hnone] at hpost
            exact absurd hpost (List.not_mem_nil n)
        · injection h with h1 h2
          rw [← h2] at hev
          exact absurd hev (List.not_mem_nil ev)
    | some c =>
      rw [playChord_some_eq] at hok
      split at hok
      · injection hok with h
        injection h with h1 h2
        rw [← h2] at hev
        exact absurd hev (List.not_mem_nil ev)
      · split at hok
        · injection hok with h
          split at h
          · rcases stopChord_spec (initHarmonyState st) tone with
              ⟨he, _⟩ | hnone
            · have h2 : (stopChord (initHarmonyState st) tone).2 = evs :=
                congrArg Prod.snd h
              rw [he] at h2
              rw [← h2] at hev
              exact absurd hev (List.not_mem_nil ev)
            · have h1 : (stopChord (initHarmonyState st) tone).1 = st' :=
                congrArg Prod.fst h
              rw [← h1] at hpost
              unfold currentChordNotes at hpost
              rw [hnone] at hpost
              exact absurd hpost (List.not_mem_nil n)
          · injection h with h1 h2
            rw [← h2] at hev
            exact absurd hev (List.not_mem_nil ev)
        · unfold playChordGated at hok
          split at hok
          · injection hok with h
            injection h with h1 h2
            rw [← h2] at hev
            exact absurd hev (List.not_mem_nil ev)
          · exact playChordProcessed_ok_legato _ _ _ _ _ _ _ _ _ _ _ _ hok
              (by rw [jsSetOf_mem]; exact hprev) hpost ev hev
  · intro st c pos now tone hlast hne
    have hlast2 : ({ initHarmonyState st with movementHarmony :=
        (updateMovementTracking st.movementHarmony (pos.getD (1/2)) now).1 } :
        EngineState).lastChord = some c := hlast
    rw [playChord_some_eq]
    by_cases hstart : st.audio.audioStarted = true
    · rw [if_neg (by simp [hstart])]
      rw [if_neg (fun hE => hne (by simpa using hE))]
      unfold playChordGated
      rw [if_pos (by rw [hlast2, chordEquals_self]; simp)]
      exact ⟨_, rfl⟩
    · rw [if_pos (by simp [hstart])]
      exact ⟨st, rfl⟩

/-- A C-major chord fixture held by the engine. -/
def heldChordC : Chord :=
  { root := "C", type := "major", notes := ["C3", "E3", "G3"], name := "C" }

/-- An engine state that already holds `heldChordC` as `lastChord`. -/
def heldStateC : EngineState :=
  { initEngineState true with lastChord := some heldChordC }

/-- Claim C2, witness: after holding the chord C as `lastChord`, feeding it
again produces no synthesizer calls. -/
theorem playChord_legato_witness :
    ∃ st', playChord okSynth heldStateC (some heldChordC)
      (some (1/2)) 1000 0 = .ok (st', []) :=
  playChord_legato.2 heldStateC heldChordC (some (1/2)) 1000 0 rfl (by decide)


lemma jsSetOf_length_le (l : List String) : (jsSetOf l).length ≤ l.length :=
  nodup_length_le_of_subset _ _ (jsSetOf_nodup l)
    (fun x hx => (jsSetOf_mem l x).mp hx)

lemma chordTargetNotes_le12 (hs0 : HandState) (ss : Option ℤ) (now : ℤ)
    (vel : ℚ) (fast : Bool) (ns : List String) :
    ((chordTargetNotes hs0 ss now vel fast ns).2.2).length ≤ 12 := by
  simp only [chordTargetNotes]
  split_ifs <;>
    first
    | exact le_trans (jsSetOf_length_le _)
        (le_trans (List.length_filter_le _ _)
          (by rw [List.length_take]; omega))
    | exact le_trans (jsSetOf_length_le _)
        (le_trans (List.length_filter_le _ _)
          (le_trans (List.length_filterMap_le _ _)
            (by simp only [List.length_append, List.length_cons,
              List.length_nil]; omega)))
    | (cases getBassNote ns <;> simp)

lemma stopChord_budget (st : EngineState) (tone : ℚ) :
    (currentChordNotes (stopChord st tone).1).length ≤
      (currentChordNotes st).length ∧
    ∀ ev ∈ (stopChord st tone).2, ∀ ns t v,
      ev = SynthEvent.attack ns t v → ns.length ≤ 12 := by
  unfold stopChord
  split_ifs <;>
    first
    | exact ⟨le_refl _, fun ev hev => absurd hev (List.not_mem_nil ev)⟩
    | (refine ⟨Nat.zero_le _, ?_⟩
       intro ev hev ns t v heq
       rw [List.mem_singleton.mp hev] at heq
       simp at heq)

lemma playChordProcessed_budget (st : EngineState) (ch : Chord) (vel : ℚ)
    (hs' : HandState) (ss' : Option ℤ) (prev target : List String)
    (now : ℤ) (tone : ℚ) (st' : EngineState) (evs : List SynthEvent)
    (hok : playChordProcessed okSynth st ch vel hs' ss' prev target now tone
      = .ok (st', evs)) :
    (currentChordNotes st').length ≤ target.length ∧
    ∀ ev ∈ evs, ∀ ns t v, ev = SynthEvent.attack ns t v → ns.length ≤ 12 := by
  unfold playChordProcessed at hok
  rw [if_neg (fun hc => absurd hc.2 (by decide))] at hok
  rw [if_neg (fun hc => absurd hc.2 (by decide))] at hok
  injection hok with h
  injection h with h1 h2
  subst h1
  subst h2
  constructor
  · exact nodup_length_le_of_subset _ _ (finalNotesForStateOf_nodup prev target)
      (fun x hx => (mem_finalNotesForStateOf prev target x).mp hx)
  · intro ev hev ns t v heq
    rcases List.mem_append.mp hev with hre | hat
    · unfold releaseEventsOf at hre
      split at hre
      · rw [List.mem_singleton.mp hre] at heq
        simp at heq
      · exact absurd hre (List.not_mem_nil ev)
    · unfold attackEventsOf at hat
      split at hat
      · rw [List.mem_singleton.mp hat] at heq
        injection heq with hns ht hv
        rw [← hns]
        unfold actualNotesToAttackOf
        have hle := List.length_take_le
          ((max 0 (12 - ((notesThatContinueOf prev target).length : ℤ))).toNat)
          (notesToAttackOf prev target)
        have hmax : ((max 0
            (12 - ((notesThatContinueOf prev target).length : ℤ))).toNat) ≤ 12 := by
          omega
        omega
      · exact absurd hat (List.not_mem_nil ev)

lemma playChord_budget_step (st : EngineState) (chord : Option Chord)
    (pos : Option ℚ) (now : ℤ) (tone : ℚ) (st' : EngineState)
    (evs : List SynthEvent)
    (hok : playChord okSynth st chord pos now tone = .ok (st', evs))
    (hst : (currentChordNotes st).length ≤ 12) :
    (currentChordNotes st').length ≤ 12 ∧
    ∀ ev ∈ evs, ∀ ns t v, ev = SynthEvent.attack ns t v → ns.length ≤ 12 := by
  cases chord with
  | none =>
    rw [playChord_none_eq] at hok
    split at hok
    · injection hok with h
      injection h with h1 h2
      subst h1
      subst h2
      exact ⟨hst, fun ev hev => absurd hev (List.not_mem_nil ev)⟩
    · injection hok with h
      split at h
      · have hb := stopChord_budget (initHarmonyState st) tone
        have h1 : (stopChord (initHarmonyState st) tone).1 = st' :=
          congrArg Prod.fst h
        have h2 : (stopChord (initHarmonyState st) tone).2 = evs :=
          congrArg Prod.snd h
        rw [h1, h2] at hb
        exact ⟨le_trans hb.1 hst, hb.2⟩
      · injection h with h1 h2
        subst h2
        rw [← h1]
        exact ⟨hst, fun ev hev => absurd hev (List.not_mem_nil ev)⟩
  | some c =>
    rw [playChord_some_eq] at hok
    split at hok
    · injection hok with h
      injection h with h1 h2
      subst h1
      subst h2
      exact ⟨hst, fun ev hev => absurd hev (List.not_mem_nil ev)⟩
    · split at hok
      · injection hok with h
        split at h
        · have hb := stopChord_budget (initHarmonyState st) tone
          have h1 : (stopChord (initHarmonyState st) tone).1 = st' :=
            congrArg Prod.fst h
          have h2 : (stopChord (initHarmonyState st) tone).2 = evs :=
            congrArg Prod.snd h
          rw [h1, h2] at hb
          exact ⟨le_trans hb.1 hst, hb.2⟩
        · injection h with h1 h2
          subst h2
          rw [← h1]
          exact ⟨hst, fun ev hev => absurd hev (List.not_mem_nil ev)⟩
      · unfold playChordGated at hok
        split at hok
        · injection hok with h
          injection h with h1 h2
          subst h2
          rw [← h1]
          exact ⟨hst, fun ev hev => absurd hev (List.not_mem_nil ev)⟩
        · have hb := playChordProcessed_budget _ _ _ _ _ _ _ _ _ _ _ hok
          exact ⟨le_trans hb.1 (chordTargetNotes_le12 _ _ _ _ _ _), hb.2⟩

lemma runChordUpdates_budget (inputs : List ChordInput) :
    ∀ st : EngineState, (currentChordNotes st).length ≤ 12 →
      (currentChordNotes (runChordUpdates st inputs).1).length ≤ 12 ∧
      ∀ ev ∈ (runChordUpdates st inputs).2, ∀ ns t v,
        ev = SynthEvent.attack ns t v → ns.length ≤ 12 := by
  induction inputs with
  | nil =>
    intro st hst
    exact ⟨hst, fun ev hev => absurd hev (List.not_mem_nil ev)⟩
  | cons i rest ih =>
    intro st hst
    unfold runChordUpdates
    rcases hp : playChord okSynth st i.chord i.handPosition i.now i.toneNow
      with e | p
    · simp only [hp]
      exact ⟨hst, fun ev hev => absurd hev (List.not_mem_nil ev)⟩
    · rcases p with ⟨st1, evs⟩
      have hstep := playChord_budget_step st i.chord i.handPosition i.now
        i.toneNow st1 evs hp hst
      have hrest := ih st1 hstep.1
      simp only [hp]
      refine ⟨hrest.1, ?_⟩
      intro ev hev ns t v heq
      rcases List.mem_append.mp hev with h1 | h2
      · exact hstep.2 ev h1 ns t v heq
      · exact hrest.2 ev h2 ns t v heq

/-- Claim C1: voice budget. For every sequence of chord updates processed
from a pristine engine state, after every update the allocator's internal
`currentChord.notes` model holds at most 12 notes and every `triggerAttack`
sent to the synthesizer carries at most 12 notes; moreover, whenever the
continuing-note count is within the budget, `actualNotesToAttack` is
truncated so that attacked plus continuing notes stay within
`MAX_HARMONY_VOICES` (12). -/
theorem playChord_voice_budget :
    (∀ (b : Bool) (inputs : List ChordInput),
      (currentChordNotes (runChordUpdates (initEngineState b) inputs).1).length
          ≤ 12 ∧
      ∀ ev ∈ (runChordUpdates (initEngineState b) inputs).2, ∀ ns t v,
        ev = SynthEvent.attack ns t v → ns.length ≤ 12) ∧
    (∀ prev target : List String,
      (notesThatContinueOf prev target).length ≤ 12 →
      (actualNotesToAttackOf prev target).length +
        (notesThatContinueOf prev target).length ≤ 12) := by
  constructor
  · intro b inputs
    exact runChordUpdates_budget inputs (initEngineState b) (Nat.zero_le 12)
  · intro prev target hc
    unfold actualNotesToAttackOf
    have hle := List.length_take_le
      ((max 0 (12 - ((notesThatContinueOf prev target).length : ℤ))).toNat)
      (notesToAttackOf prev target)
    omega

/-- Claim C1, witness: a single update with a C-major chord leaves at most
12 model notes. -/
theorem playChord_voice_budget_witness :
    (currentChordNotes (runChordUpdates (initEngineState true)
      [⟨some heldChordC, some (1/2), 1000, 0⟩]).1).length ≤ 12 :=
  (playChord_voice_budget.1 true [⟨some heldChordC, some (1/2), 1000, 0⟩]).1



/-! Invariants used for the disappearance property (handTracker ticks). -/

/-- Engine-level consistency: a silent axis has empty sounding state, and
nothing sounds before the audio context is started. -/
def EngInv (eng : EngineState) : Prop :=
  (eng.audio.rightHandIsPlaying = false →
    eng.audio.currentMelodyNote = none) ∧
  (eng.audio.leftHandIsPlaying = false → currentChordNotes eng = []) ∧
  (eng.audio.audioStarted = false →
    eng.audio.rightHandIsPlaying = false ∧
    eng.audio.leftHandIsPlaying = false)

/-- Tracker-level: an axis whose presence flag is down has empty sounding
state. -/
def TrkInv (ts : TrackerState) : Prop :=
  EngInv ts.engine ∧
  (ts.isRightHandPresent = false →
    ts.engine.audio.currentMelodyNote = none ∧
    ts.engine.audio.rightHandIsPlaying = false) ∧
  (ts.isLeftHandPresent = false →
    currentChordNotes ts.engine = [] ∧
    ts.engine.audio.leftHandIsPlaying = false)

lemma EngInv_startPatch (eng : EngineState) (h : EngInv eng) :
    EngInv { eng with audio := { eng.audio with audioStarted := true } } := by
  obtain ⟨i1, i2, i3⟩ := h
  exact ⟨i1, i2, fun hS => Bool.noConfusion hS⟩

lemma stopMelody_stage (eng : EngineState) (tone : ℚ) (hinv : EngInv eng) :
    EngInv (stopMelody eng tone).1 ∧
    (stopMelody eng tone).1.audio.currentMelodyNote = none ∧
    (stopMelody eng tone).1.audio.rightHandIsPlaying = false ∧
    (stopMelody eng tone).1.audio.leftHandIsPlaying =
      eng.audio.leftHandIsPlaying ∧
    (stopMelody eng tone).1.audio.currentChord = eng.audio.currentChord ∧
    (stopMelody eng tone).1.audio.audioStarted = eng.audio.audioStarted ∧
    (eng.audio.rightHandIsPlaying = true →
      (stopMelody eng tone).2 = [SynthEvent.melodyRelease tone]) := by
  obtain ⟨i1, i2, i3⟩ := hinv
  by_cases hS : eng.audio.audioStarted = true
  · by_cases hp : eng.audio.rightHandIsPlaying = true
    · have he : stopMelody eng tone =
          ({ eng with
              audio := { eng.audio with
                rightHandIsPlaying := false
                currentMelodyNote := none }
              lastMelodyNote := none },
           [SynthEvent.melodyRelease tone]) := by
        unfold stopMelody
        rw [if_neg (by simp [hS]), if_pos hp]
      rw [he]
      exact ⟨⟨fun _ => rfl, i2, fun hS' => absurd (hS.symm.trans hS')
          (by decide)⟩,
        rfl, rfl, rfl, rfl, rfl, fun _ => rfl⟩
    · have hp' : eng.audio.rightHandIsPlaying = false := by
        cases hpe : eng.audio.rightHandIsPlaying
        · rfl
        · exact absurd hpe hp
      have he : stopMelody eng tone = (eng, []) := by
        unfold stopMelody
        rw [if_neg (by simp [hS]), if_neg hp]
      rw [he]
      exact ⟨⟨i1, i2, i3⟩, i1 hp', hp', rfl, rfl, rfl,
        fun hc => absurd hc hp⟩
  · have hS' : eng.audio.audioStarted = false := by
      cases hse : eng.audio.audioStarted
      · rfl
      · exact absurd hse hS
    have hp' : eng.audio.rightHandIsPlaying = false := (i3 hS').1
    have he : stopMelody eng tone = (eng, []) := by
      unfold stopMelody
      rw [if_pos (by simp [hS'])]
    rw [he]
    exact ⟨⟨i1, i2, i3⟩, i1 hp', hp', rfl, rfl, rfl,
      fun hc => Bool.noConfusion (hc.symm.trans hp')⟩

lemma stopChord_stage (eng : EngineState) (tone : ℚ) (hinv : EngInv eng) :
    EngInv (stopChord eng tone).1 ∧
    currentChordNotes (stopChord eng tone).1 = [] ∧
    (stopChord eng tone).1.audio.leftHandIsPlaying = false ∧
    (stopChord eng tone).1.audio.rightHandIsPlaying =
      eng.audio.rightHandIsPlaying ∧
    (stopChord eng tone).1.audio.currentMelodyNote =
      eng.audio.currentMelodyNote ∧
    (stopChord eng tone).1.audio.audioStarted = eng.audio.audioStarted ∧
    (eng.audio.leftHandIsPlaying = true →
      (stopChord eng tone).2 = [SynthEvent.releaseAll tone]) := by
  obtain ⟨i1, i2, i3⟩ := hinv
  by_cases hS : eng.audio.audioStarted = true
  · by_cases hp : (eng.audio.leftHandIsPlaying ||
        (match eng.audio.currentChord with
         | some c => decide (0 < c.notes.length)
         | none => false)) = true
    · have he : stopChord eng tone =
          ({ eng with
              audio := { eng.audio with
                leftHandIsPlaying := false
                currentChord := none
                harmonyHandState := some .settled
                settleStartTime := none }
              lastChord := none },
           [SynthEvent.releaseAll tone]) := by
        unfold stopChord
        rw [if_neg (by simp [hS]), if_pos hp]
      rw [he]
      exact ⟨⟨i1, fun _ => rfl, fun hS' => absurd (hS.symm.trans hS')
          (by decide)⟩,
        rfl, rfl, rfl, rfl, rfl, fun _ => rfl⟩
    · have hp' : eng.audio.leftHandIsPlaying = false := by
        cases hpe : eng.audio.leftHandIsPlaying
        · rfl
        · exact absurd (by rw [hpe]; rfl) hp
      have he : stopChord eng tone =
          ({ eng with
              audio := { eng.audio with
                harmonyHandState := some .settled
                settleStartTime := none } },
           []) := by
        unfold stopChord
        rw [if_neg (by simp [hS]), if_neg hp]
      rw [he]
      refine ⟨⟨i1, fun _ => i2 hp', fun hS' => absurd (hS.symm.trans hS')
          (by decide)⟩,
        i2 hp', hp', rfl, rfl, rfl,
        fun hc => absurd (by rw [hc]; rfl) hp⟩
  · have hS' : eng.audio.audioStarted = false := by
      cases hse : eng.audio.audioStarted
      · rfl
      · exact absurd hse hS
    have hp' : eng.audio.leftHandIsPlaying = false := (i3 hS').2
    have he : stopChord eng tone = (eng, []) := by
      unfold stopChord
      rw [if_pos (by simp [hS'])]
    rw [he]
    exact ⟨⟨i1, i2, i3⟩, i2 hp', hp', rfl, rfl, rfl,
      fun hc => Bool.noConfusion (hc.symm.trans hp')⟩

/-- `playMelodyNote` on a present note reduces to guard-then-gated. -/
lemma playMelodyNote_some_eq (b : SynthBehavior) (st : EngineState)
    (n : String) (pos : Option ℚ) (now : ℤ) (tone : ℚ) :
    playMelodyNote b st (some n) pos now tone =
      if ¬ st.audio.audioStarted ∨ n = "" then .ok (st, [])
      else
        playMelodyNoteGated b
          { st with movementMelody :=
              (updateMovementTracking st.movementMelody (pos.getD (1/2))
                now).1 }
          n
          (updateMovementTracking st.movementMelody (pos.getD (1/2)) now).2
          now tone := rfl

lemma playMelodyNote_fields (st : EngineState) (note : Option String)
    (pos : Option ℚ) (now : ℤ) (tone : ℚ) (st' : EngineState)
    (evs : List SynthEvent)
    (hok : playMelodyNote okSynth st note pos now tone = .ok (st', evs)) :
    st'.audio.leftHandIsPlaying = st.audio.leftHandIsPlaying ∧
    st'.audio.currentChord = st.audio.currentChord ∧
    st'.audio.audioStarted = st.audio.audioStarted := by
  cases note with
  | none =>
    injection hok with h
    injection h with h1 h2
    rw [← h1]
    exact ⟨rfl, rfl, rfl⟩
  | some n =>
    rw [playMelodyNote_some_eq] at hok
    split at hok
    · injection hok with h
      injection h with h1 h2
      rw [← h1]
      exact ⟨rfl, rfl, rfl⟩
    · unfold playMelodyNoteGated at hok
      split at hok
      · injection hok with h
        injection h with h1 h2
        rw [← h1]
        exact ⟨rfl, rfl, rfl⟩
      · split at hok
        · rw [if_neg (show ¬ (okSynth.throwOnAttack = true) by decide)] at hok
          injection hok with h
          injection h with h1 h2
          rw [← h1]
          exact ⟨rfl, rfl, rfl⟩
        · rw [if_neg (show ¬ (okSynth.throwOnAttack = true) by decide)] at hok
          injection hok with h
          injection h with h1 h2
          rw [← h1]
          exact ⟨rfl, rfl, rfl⟩

lemma playMelodyNote_EngInv (st : EngineState) (note : Option String)
    (pos : Option ℚ) (now : ℤ) (tone : ℚ) (st' : EngineState)
    (evs : List SynthEvent)
    (hok : playMelodyNote okSynth st note pos now tone = .ok (st', evs))
    (hinv : EngInv st) : EngInv st' := by
  obtain ⟨i1, i2, i3⟩ := hinv
  cases note with
  | none =>
    injection hok with h
    injection h with h1 h2
    rw [← h1]
    exact ⟨i1, i2, i3⟩
  | some n =>
    rw [playMelodyNote_some_eq] at hok
    split at hok
    · injection hok with h
      injection h with h1 h2
      rw [← h1]
      exact ⟨i1, i2, i3⟩
    · rename_i hguard
      have hstart : st.audio.audioStarted = true := by
        by_contra hc
        exact hguard (Or.inl hc)
      unfold playMelodyNoteGated at hok
      split at hok
      · injection hok with h
        injection h with h1 h2
        rw [← h1]
        exact ⟨i1, i2, i3⟩
      · split at hok
        · rw [if_neg (show ¬ (okSynth.throwOnAttack = true) by decide)] at hok
          injection hok with h
          injection h with h1 h2
          rw [← h1]
          exact ⟨fun hp => Bool.noConfusion hp, i2,
            fun hS => absurd (hstart.symm.trans hS) (by decide)⟩
        · rename_i hplay
          rw [if_neg (show ¬ (okSynth.throwOnAttack = true) by decide)] at hok
          injection hok with h
          injection h with h1 h2
          rw [← h1]
          refine ⟨fun hp => absurd ?_ hplay, i2,
            fun hS => absurd (hstart.symm.trans hS) (by decide)⟩
          intro hpt
          exact Bool.noConfusion (hpt.symm.trans hp)

lemma stopChord_fields (st : EngineState) (tone : ℚ) :
    (stopChord st tone).1.audio.rightHandIsPlaying =
      st.audio.rightHandIsPlaying ∧
    (stopChord st tone).1.audio.currentMelodyNote =
      st.audio.currentMelodyNote ∧
    (stopChord st tone).1.audio.audioStarted = st.audio.audioStarted := by
  unfold stopChord
  split_ifs <;> exact ⟨rfl, rfl, rfl⟩

lemma playChord_melody_fields (st : EngineState) (chord : Option Chord)
    (pos : Option ℚ) (now : ℤ) (tone : ℚ) (st' : EngineState)
    (evs : List SynthEvent)
    (hok : playChord okSynth st chord pos now tone = .ok (st', evs)) :
    st'.audio.rightHandIsPlaying = st.audio.rightHandIsPlaying ∧
    st'.audio.currentMelodyNote = st.audio.currentMelodyNote ∧
    st'.audio.audioStarted = st.audio.audioStarted := by
  cases chord with
  | none =>
    rw [playChord_none_eq] at hok
    split at hok
    · injection hok with h
      injection h with h1 h2
      rw [← h1]
      exact ⟨rfl, rfl, rfl⟩
    · injection hok with h
      split at h
      · have h1 : (stopChord (initHarmonyState st) tone).1 = st' :=
          congrArg Prod.fst h
        obtain ⟨f1, f2, f3⟩ := stopChord_fields (initHarmonyState st) tone
        rw [h1] at f1 f2 f3
        exact ⟨f1, f2, f3⟩
      · injection h with h1 h2
        rw [← h1]
        exact ⟨rfl, rfl, rfl⟩
  | some c =>
    rw [playChord_some_eq] at hok
    split at hok
    · injection hok with h
      injection h with h1 h2
      rw [← h1]
      exact ⟨rfl, rfl, rfl⟩
    · split at hok
      · injection hok with h
        split at h
        · have h1 : (stopChord (initHarmonyState st) tone).1 = st' :=
            congrArg Prod.fst h
          obtain ⟨f1, f2, f3⟩ := stopChord_fields (initHarmonyState st) tone
          rw [h1] at f1 f2 f3
          exact ⟨f1, f2, f3⟩
        · injection h with h1 h2
          rw [← h1]
          exact ⟨rfl, rfl, rfl⟩
      · unfold playChordGated at hok
        split at hok
        · injection hok with h
          injection h with h1 h2
          rw [← h1]
          exact ⟨rfl, rfl, rfl⟩
        · unfold playChordProcessed at hok
          rw [if_neg (fun hc => absurd hc.2 (by decide))] at hok
          rw [if_neg (fun hc => absurd hc.2 (by decide))] at hok
          injection hok with h
          injection h with h1 h2
          rw [← h1]
          exact ⟨rfl, rfl, rfl⟩


lemma not_isEmpty_false {l : List String} (h : (!l.isEmpty) = false) :
    l = [] := by
  cases l with
  | nil => rfl
  | cons a t => exact absurd h (by simp)

lemma playChord_EngInv (st : EngineState) (chord : Option Chord)
    (pos : Option ℚ) (now : ℤ) (tone : ℚ) (st' : EngineState)
    (evs : List SynthEvent)
    (hok : playChord okSynth st chord pos now tone = .ok (st', evs))
    (hinv : EngInv st) : EngInv st' := by
  obtain ⟨i1, i2, i3⟩ := hinv
  cases chord with
  | none =>
    rw [playChord_none_eq] at hok
    split at hok
    · injection hok with h
      injection h with h1 h2
      rw [← h1]
      exact ⟨i1, i2, i3⟩
    · injection hok with h
      split at h
      · have h1 : (stopChord (initHarmonyState st) tone).1 = st' :=
          congrArg Prod.fst h
        have hE := (stopChord_stage (initHarmonyState st) tone ⟨i1, i2, i3⟩).1
        rw [h1] at hE
        exact hE
      · injection h with h1 h2
        rw [← h1]
        exact ⟨i1, i2, i3⟩
  | some c =>
    rw [playChord_some_eq] at hok
    split at hok
    · injection hok with h
      injection h with h1 h2
      rw [← h1]
      exact ⟨i1, i2, i3⟩
    · rename_i hstart
      have hstart' : st.audio.audioStarted = true := by
        by_contra hc
        exact hstart hc
      split at hok
      · injection hok with h
        split at h
        · have h1 : (stopChord (initHarmonyState st) tone).1 = st' :=
            congrArg Prod.fst h
          have hE :=
            (stopChord_stage (initHarmonyState st) tone ⟨i1, i2, i3⟩).1
          rw [h1] at hE
          exact hE
        · injection h with h1 h2
          rw [← h1]
          exact ⟨i1, i2, i3⟩
      · unfold playChordGated at hok
        split at hok
        · injection hok with h
          injection h with h1 h2
          rw [← h1]
          exact ⟨i1, i2, i3⟩
        · unfold playChordProcessed at hok
          rw [if_neg (fun hc => absurd hc.2 (by decide))] at hok
          rw [if_neg (fun hc => absurd hc.2 (by decide))] at hok
          injection hok with h
          injection h with h1 h2
          rw [← h1]
          exact ⟨i1, fun hL => not_isEmpty_false hL,
            fun hS => absurd (hstart'.symm.trans hS) (by decide)⟩

lemma processRightHand_spec (ts : TrackerState) (h : HandSample) (sa : Bool)
    (inp : TickInput) (hinv : EngInv ts.engine) :
    EngInv (processRightHand ts h sa inp).1.engine ∧
    (processRightHand ts h sa inp).1.isRightHandPresent = true ∧
    (processRightHand ts h sa inp).1.isLeftHandPresent =
      ts.isLeftHandPresent ∧
    (processRightHand ts h sa inp).1.engine.audio.leftHandIsPlaying =
      ts.engine.audio.leftHandIsPlaying ∧
    (processRightHand ts h sa inp).1.engine.audio.currentChord =
      ts.engine.audio.currentChord ∧
    (processRightHand ts h sa inp).1.engine.audio.audioStarted =
      ts.engine.audio.audioStarted := by
  obtain ⟨wy⟩ := h
  cases wy with
  | none => exact ⟨hinv, rfl, rfl, rfl, rfl, rfl⟩
  | some w =>
    simp only [processRightHand]
    cases sa with
    | false => exact ⟨hinv, rfl, rfl, rfl, rfl, rfl⟩
    | true =>
      by_cases hch : some (getNoteFromPosition (JSVal.num w) ts.config
          ts.lastRightHandY).1 ≠ ts.prevRight.note ∨ 9/500 < |w - w|
      · rw [if_pos hch]
        rcases hp : playMelodyNote okSynth ts.engine
            (some (getNoteFromPosition (JSVal.num w) ts.config
              ts.lastRightHandY).1) (some w) inp.now inp.toneNow
          with e | ⟨eng, evs⟩
        · simp only [hp]
          exact ⟨hinv, rfl, rfl, rfl, rfl, rfl⟩
        · simp only [hp]
          obtain ⟨f1, f2, f3⟩ := playMelodyNote_fields _ _ _ _ _ _ _ hp
          exact ⟨playMelodyNote_EngInv _ _ _ _ _ _ _ hp hinv, rfl, rfl,
            f1, f2, f3⟩
      · rw [if_neg hch]
        exact ⟨hinv, rfl, rfl, rfl, rfl, rfl⟩

lemma processLeftHand_spec (ts : TrackerState) (h : HandSample) (sa : Bool)
    (inp : TickInput) (hinv : EngInv ts.engine) :
    EngInv (processLeftHand ts h sa inp).1.engine ∧
    (processLeftHand ts h sa inp).1.isLeftHandPresent = true ∧
    (processLeftHand ts h sa inp).1.isRightHandPresent =
      ts.isRightHandPresent ∧
    (processLeftHand ts h sa inp).1.engine.audio.rightHandIsPlaying =
      ts.engine.audio.rightHandIsPlaying ∧
    (processLeftHand ts h sa inp).1.engine.audio.currentMelodyNote =
      ts.engine.audio.currentMelodyNote ∧
    (processLeftHand ts h sa inp).1.engine.audio.audioStarted =
      ts.engine.audio.audioStarted := by
  obtain ⟨wy⟩ := h
  cases wy with
  | none => exact ⟨hinv, rfl, rfl, rfl, rfl, rfl⟩
  | some w =>
    simp only [processLeftHand]
    cases sa with
    | false => exact ⟨hinv, rfl, rfl, rfl, rfl, rfl⟩
    | true =>
      by_cases hch : (ts.prevLeft.note.isNone ||
          (match ts.prevLeft.note with
            | some pc => (getChordFromPosition (JSVal.num w) false ts.config
                ts.lastLeftHandY).1.name != pc.name
            | none => true) ||
          decide (27/1000 < |w - ts.prevLeft.lastSignificantY|)) = true
      · rw [if_pos hch]
        rcases hp : playChord okSynth ts.engine
            (some (getChordFromPosition (JSVal.num w) false ts.config
              ts.lastLeftHandY).1) (some w) inp.now inp.toneNow
          with e | ⟨eng, evs⟩
        · simp only [hp]
          exact ⟨hinv, rfl, rfl, rfl, rfl, rfl⟩
        · simp only [hp]
          obtain ⟨f1, f2, f3⟩ := playChord_melody_fields _ _ _ _ _ _ _ hp
          exact ⟨playChord_EngInv _ _ _ _ _ _ _ hp hinv, rfl, rfl,
            f1, f2, f3⟩
      · rw [if_neg hch]
        exact ⟨hinv, rfl, rfl, rfl, rfl, rfl⟩

/-- Claim C7: for any fixed configuration, the melody quantizer's output
pitch is non-increasing in y (under the inverted mapping): for
`y1 ≤ y2` in [0,1] the MIDI number of the note at `y2` is at most that of
the note at `y1`; and when the two computed positions are adjacent (or
equal) — in particular across a scale-index wraparound — the jump is at
most one octave (12 semitones). -/
theorem getNote_monotone (cfg : Config) (q1 q2 : ℚ) (l1 l2 : JNum)
    (h0 : 0 ≤ q1) (h12 : q1 ≤ q2) (h1 : q2 ≤ 1) :
    ∃ m1 m2 : ℤ,
      parsePitch (getNoteFromPosition (JSVal.num q1) cfg l1).1 = some m1 ∧
      parsePitch (getNoteFromPosition (JSVal.num q2) cfg l2).1 = some m2 ∧
      m2 ≤ m1 ∧
      (notePosition cfg q1 ≤ notePosition cfg q2 + 1 → m1 - m2 ≤ 12) := by
  have hc1 : max 0 (min 1 q1) = q1 := by
    rw [min_eq_right (le_trans h12 h1), max_eq_right h0]
  have hc2 : max 0 (min 1 q2) = q2 := by
    rw [min_eq_right h1, max_eq_right (le_trans h0 h12)]
  have hr1 : (getNoteFromPosition (JSVal.num q1) cfg l1).1 = getNoteNum q1 cfg := by
    show getNoteNum (max 0 (min 1 q1)) cfg = getNoteNum q1 cfg
    rw [hc1]
  have hr2 : (getNoteFromPosition (JSVal.num q2) cfg l2).1 = getNoteNum q2 cfg := by
    show getNoteNum (max 0 (min 1 q2)) cfg = getNoteNum q2 cfg
    rw [hc2]
  rw [hr1, hr2]
  by_cases hroot : jsIndexOf notes (effRoot cfg) = -1
  · -- invalid root: both calls return the constant "C<octave>" fallback
    obtain ⟨mo, hmo⟩ := parsePitch_C_oct cfg
    have hfb : ∀ vq : ℚ, getNoteNum vq cfg = "C" ++ toString (melodyOctave cfg) := by
      intro vq
      obtain ⟨hne, hent, _⟩ := scaleOk_all cfg
      have hlen : 0 < ((scaleFor (effScaleName cfg)).length : ℤ) := by
        cases hl : scaleFor (effScaleName cfg) with
        | nil => exact absurd hl hne
        | cons a as => simp [hl]
      have hp0 : 0 ≤ notePosition cfg vq := (notePosition_bounds cfg vq).1
      obtain ⟨s, hs, hmem⟩ := jsGet_some_mem _ _
        (Int.tmod_nonneg _ hp0)
        (by exact_mod_cast Int.tmod_lt_of_pos _ hlen)
      have hsb := hent s hmem
      unfold getNoteNum
      simp only [show noteSemitones cfg vq = some s from hs]
      rw [if_neg (by omega : ¬ (s < 0 ∨ 12 < s))]
      rw [if_pos hroot]
    rw [hfb q1, hfb q2]
    exact ⟨mo, mo, hmo, hmo, le_refl _, fun _ => by omega⟩
  · obtain ⟨heq1, hpos1⟩ := getNoteNum_main cfg q1 hroot
    obtain ⟨heq2, hpos2⟩ := getNoteNum_main cfg q2 hroot
    obtain ⟨hne, hent, hsteps⟩ := scaleOk_all cfg
    have hridx : 0 ≤ jsIndexOf notes (effRoot cfg) ∧
        jsIndexOf notes (effRoot cfg) ≤ 11 := by
      rcases jsIndexOf_cases notes (effRoot cfg) with h | h
      · exact absurd h hroot
      · have hlen : ((notes.length : ℕ) : ℤ) = 12 := by rfl
        omega
    have hoct := melodyOctave_bounds cfg
    set kconst : ℤ := 60 + jsIndexOf notes (effRoot cfg) +
      (melodyOctave cfg - 4) * 12 with hk
    have hk36 : 36 ≤ kconst := by omega
    set pa := notePosition cfg q1 with hpa
    set pb := notePosition cfg q2 with hpb
    have hb1 := notePosition_bounds cfg q1
    have hb2 := notePosition_bounds cfg q2
    have hplt : pb ≤ pa := notePosition_antitone cfg q1 q2 h12
    have hmono : scaleStep (scaleFor (effScaleName cfg)) pb ≤
        scaleStep (scaleFor (effScaleName cfg)) pa := by
      apply stepwise_mono _ 0 (totalRangeFor cfg - 1)
        (fun p hp0 hp1 => (hsteps p (by rw [Finset.mem_Icc]; omega)).1)
        pb pa hb2.1 hplt hb1.2
    have hjump : pa ≤ pb + 1 →
        scaleStep (scaleFor (effScaleName cfg)) pa -
          scaleStep (scaleFor (effScaleName cfg)) pb ≤ 12 := by
      intro hadj
      rcases eq_or_lt_of_le hplt with heq | hlt
      · rw [heq]; omega
      · have : pa = pb + 1 := by omega
        rw [this]
        exact (hsteps pb (by rw [Finset.mem_Icc]; omega)).2
    refine ⟨min (kconst + scaleStep (scaleFor (effScaleName cfg)) pa) 127,
            min (kconst + scaleStep (scaleFor (effScaleName cfg)) pb) 127,
            ?_, ?_, by omega, fun hadj => by have := hjump hadj; omega⟩
    · rw [heq1]
      rw [parsePitch_calculate _ (by omega)]
    · rw [heq2]
      rw [parsePitch_calculate _ (by omega)]

/-- Claim C7, witness: C major at octave 4 between y = 0.3 and y = 0.6. -/
theorem getNote_monotone_witness :
    ∃ m1 m2 : ℤ,
      parsePitch (getNoteFromPosition (JSVal.num (3/10)) ⟨"major", "C", some 4⟩
        (JNum.num 0)).1 = some m1 ∧
      parsePitch (getNoteFromPosition (JSVal.num (6/10)) ⟨"major", "C", some 4⟩
        (JNum.num 0)).1 = some m2 ∧
      m2 ≤ m1 ∧
      (notePosition ⟨"major", "C", some 4⟩ (3/10) ≤
        notePosition ⟨"major", "C", some 4⟩ (6/10) + 1 → m1 - m2 ≤ 12) :=
  getNote_monotone ⟨"major", "C", some 4⟩ (3/10) (6/10) (JNum.num 0)
    (JNum.num 0) (by norm_num) (by norm_num) (by norm_num)

/-- Claim C8, witness: the pentatonic scale at `y = 0` selects degree 5,
whose entry 12 is out of the chord range, so the fallback chord (with its
`error` flag) is returned. -/
theorem getChord_invalid_entry_fallback_witness :
    (getChordFromPosition (JSVal.num 0) false ⟨"pentatonic", "C", some 4⟩
        (JNum.num 0)).1 =
      createFallbackChord (effRoot ⟨"pentatonic", "C", some 4⟩)
        (chordOctaveOf ⟨"pentatonic", "C", some 4⟩) :=
  (getChord_invalid_entry_fallback ⟨"pentatonic", "C", some 4⟩ false 0
    (JNum.num 0) 12 (by norm_num) (by norm_num)
    (by with_unfolding_all decide) (by decide)).1.1


lemma currentChordNotes_eq_of {s t : EngineState}
    (h : s.audio.currentChord = t.audio.currentChord) :
    currentChordNotes s = currentChordNotes t := by
  unfold currentChordNotes
  rw [h]

/-- The start-audio patch at the head of the tick. -/
def startPatch (ts : TrackerState) (b : Bool) : TrackerState :=
  if b then
    { ts with engine := { ts.engine with audio :=
        { ts.engine.audio with audioStarted := true } } }
  else ts

/-- The per-hand main stage of the tick (`ts` is the flag-cleared state;
`wasRight`/`wasLeft` the pre-tick presence flags). -/
def tickMain (ts : TrackerState) (wasRight wasLeft : Bool)
    (inp : TickInput) : TrackerState × List SynthEvent :=
  if inp.right.isSome || inp.left.isSome then
    let ts := { ts with initialHandDetected := true }
    let shouldAudio := decide (20 < inp.perfNow - ts.lastAudioUpdate)
    let p1 : TrackerState × List SynthEvent :=
      match inp.right with
      | some h => processRightHand ts h shouldAudio inp
      | none => (ts, [])
    let p2 : TrackerState × List SynthEvent :=
      match inp.left with
      | some h => processLeftHand p1.1 h shouldAudio inp
      | none => (p1.1, [])
    let ts2 :=
      if shouldAudio then { p2.1 with lastAudioUpdate := inp.perfNow }
      else p2.1
    (ts2, p1.2 ++ p2.2)
  else
    let ts := { ts with initialHandDetected := false }
    let q1 : TrackerState × List SynthEvent :=
      if wasRight then
        let r := stopMelody ts.engine inp.toneNow
        ({ ts with engine := r.1, prevRight := {} }, r.2)
      else (ts, [])
    let q2 : TrackerState × List SynthEvent :=
      if wasLeft then
        let r := stopChord q1.1.engine inp.toneNow
        ({ q1.1 with engine := r.1, prevLeft := {} }, r.2)
      else (q1.1, [])
    (q2.1, q1.2 ++ q2.2)

/-- The end-of-tick right-hand disappearance stop. -/
def tickEndR (m : TrackerState) (wasRight : Bool) (tone : ℚ) :
    TrackerState × List SynthEvent :=
  if ¬ m.isRightHandPresent ∧ wasRight then
    let r := stopMelody m.engine tone
    ({ m with engine := r.1, prevRight := {} }, r.2)
  else (m, [])

/-- The end-of-tick left-hand disappearance stop. -/
def tickEndL (m : TrackerState) (wasLeft : Bool) (tone : ℚ) :
    TrackerState × List SynthEvent :=
  if ¬ m.isLeftHandPresent ∧ wasLeft then
    let r := stopChord m.engine tone
    ({ m with engine := r.1, prevLeft := {} }, r.2)
  else (m, [])

/-- `tick` is the composition of the stages. -/
lemma tick_decompose (ts : TrackerState) (inp : TickInput) :
    tick ts inp =
      ((tickEndL
          (tickEndR
            (tickMain
              { startPatch ts inp.startAudio with
                  isLeftHandPresent := false, isRightHandPresent := false }
              (startPatch ts inp.startAudio).isRightHandPresent
              (startPatch ts inp.startAudio).isLeftHandPresent inp).1
            (startPatch ts inp.startAudio).isRightHandPresent inp.toneNow).1
          (startPatch ts inp.startAudio).isLeftHandPresent inp.toneNow).1,
        (tickMain
            { startPatch ts inp.startAudio with
                isLeftHandPresent := false, isRightHandPresent := false }
            (startPatch ts inp.startAudio).isRightHandPresent
            (startPatch ts inp.startAudio).isLeftHandPresent inp).2 ++
          (tickEndR
            (tickMain
              { startPatch ts inp.startAudio with
                  isLeftHandPresent := false, isRightHandPresent := false }
              (startPatch ts inp.startAudio).isRightHandPresent
              (startPatch ts inp.startAudio).isLeftHandPresent inp).1
            (startPatch ts inp.startAudio).isRightHandPresent inp.toneNow).2 ++
          (tickEndL
            (tickEndR
              (tickMain
                { startPatch ts inp.startAudio with
                    isLeftHandPresent := false, isRightHandPresent := false }
                (startPatch ts inp.startAudio).isRightHandPresent
                (startPatch ts inp.startAudio).isLeftHandPresent inp).1
              (startPatch ts inp.startAudio).isRightHandPresent
              inp.toneNow).1
            (startPatch ts inp.startAudio).isLeftHandPresent
            inp.toneNow).2) := rfl


lemma startPatch_facts (ts : TrackerState) (b : Bool) (hinv : TrkInv ts) :
    TrkInv (startPatch ts b) ∧
    (startPatch ts b).isRightHandPresent = ts.isRightHandPresent ∧
    (startPatch ts b).isLeftHandPresent = ts.isLeftHandPresent ∧
    (startPatch ts b).engine.audio.rightHandIsPlaying =
      ts.engine.audio.rightHandIsPlaying ∧
    (startPatch ts b).engine.audio.leftHandIsPlaying =
      ts.engine.audio.leftHandIsPlaying := by
  obtain ⟨hE, hR, hL⟩ := hinv
  unfold startPatch
  cases b
  · rw [if_neg (fun hc => Bool.noConfusion hc)]
    exact ⟨⟨hE, hR, hL⟩, rfl, rfl, rfl, rfl⟩
  · rw [if_pos rfl]
    exact ⟨⟨EngInv_startPatch _ hE, hR, hL⟩, rfl, rfl, rfl, rfl⟩

lemma lastAudioPatch (c : Bool) (x : TrackerState) (v : ℚ) :
    (if c = true then { x with lastAudioUpdate := v } else x).engine =
      x.engine ∧
    (if c = true then { x with lastAudioUpdate := v }
      else x).isRightHandPresent = x.isRightHandPresent ∧
    (if c = true then { x with lastAudioUpdate := v }
      else x).isLeftHandPresent = x.isLeftHandPresent := by
  cases c
  · rw [if_neg (fun hc => Bool.noConfusion hc)]
    exact ⟨rfl, rfl, rfl⟩
  · rw [if_pos rfl]
    exact ⟨rfl, rfl, rfl⟩

lemma tickEndR_spec (m : TrackerState) (w : Bool) (tone : ℚ)
    (hE : EngInv m.engine) :
    EngInv (tickEndR m w tone).1.engine ∧
    (tickEndR m w tone).1.isRightHandPresent = m.isRightHandPresent ∧
    (tickEndR m w tone).1.isLeftHandPresent = m.isLeftHandPresent ∧
    (tickEndR m w tone).1.engine.audio.leftHandIsPlaying =
      m.engine.audio.leftHandIsPlaying ∧
    currentChordNotes (tickEndR m w tone).1.engine =
      currentChordNotes m.engine ∧
    (m.engine.audio.currentMelodyNote = none ∧
      m.engine.audio.rightHandIsPlaying = false →
      (tickEndR m w tone).1.engine.audio.currentMelodyNote = none ∧
      (tickEndR m w tone).1.engine.audio.rightHandIsPlaying = false) ∧
    (m.isRightHandPresent = false → w = true →
      (tickEndR m w tone).1.engine.audio.currentMelodyNote = none ∧
      (tickEndR m w tone).1.engine.audio.rightHandIsPlaying = false ∧
      (m.engine.audio.rightHandIsPlaying = true →
        SynthEvent.melodyRelease tone ∈ (tickEndR m w tone).2)) := by
  unfold tickEndR
  by_cases hc : ¬ m.isRightHandPresent = true ∧ w = true
  · rw [if_pos hc]
    obtain ⟨A1, A2, A3, A4, A5, A6, A7⟩ := stopMelody_stage m.engine tone hE
    exact ⟨A1, rfl, rfl, A4, currentChordNotes_eq_of A5,
      fun _ => ⟨A2, A3⟩,
      fun _ _ => ⟨A2, A3, fun hp => by
        rw [A7 hp]
        exact List.mem_singleton.mpr rfl⟩⟩
  · rw [if_neg hc]
    exact ⟨hE, rfl, rfl, rfl, rfl, fun hme => hme,
      fun hf hw => absurd
        ⟨fun h => Bool.noConfusion (hf.symm.trans h), hw⟩ hc⟩

lemma tickEndL_spec (m : TrackerState) (w : Bool) (tone : ℚ)
    (hE : EngInv m.engine) :
    EngInv (tickEndL m w tone).1.engine ∧
    (tickEndL m w tone).1.isRightHandPresent = m.isRightHandPresent ∧
    (tickEndL m w tone).1.isLeftHandPresent = m.isLeftHandPresent ∧
    (tickEndL m w tone).1.engine.audio.rightHandIsPlaying =
      m.engine.audio.rightHandIsPlaying ∧
    (tickEndL m w tone).1.engine.audio.currentMelodyNote =
      m.engine.audio.currentMelodyNote ∧
    (currentChordNotes m.engine = [] ∧
      m.engine.audio.leftHandIsPlaying = false →
      currentChordNotes (tickEndL m w tone).1.engine = [] ∧
      (tickEndL m w tone).1.engine.audio.leftHandIsPlaying = false) ∧
    (m.isLeftHandPresent = false → w = true →
      currentChordNotes (tickEndL m w tone).1.engine = [] ∧
      (tickEndL m w tone).1.engine.audio.leftHandIsPlaying = false ∧
      (m.engine.audio.leftHandIsPlaying = true →
        SynthEvent.releaseAll tone ∈ (tickEndL m w tone).2)) := by
  unfold tickEndL
  by_cases hc : ¬ m.isLeftHandPresent = true ∧ w = true
  · rw [if_pos hc]
    obtain ⟨B1, B2, B3, B4, B5, B6, B7⟩ := stopChord_stage m.engine tone hE
    exact ⟨B1, rfl, rfl, B4, B5,
      fun _ => ⟨B2, B3⟩,
      fun _ _ => ⟨B2, B3, fun hp => by
        rw [B7 hp]
        exact List.mem_singleton.mpr rfl⟩⟩
  · rw [if_neg hc]
    exact ⟨hE, rfl, rfl, rfl, rfl, fun hme => hme,
      fun hf hw => absurd
        ⟨fun h => Bool.noConfusion (hf.symm.trans h), hw⟩ hc⟩

lemma tickMain_nn (ts : TrackerState) (wr wl : Bool) (inp : TickInput)
    (hr : inp.right = none) (hl : inp.left = none)
    (hE : EngInv ts.engine) :
    EngInv (tickMain ts wr wl inp).1.engine ∧
    (tickMain ts wr wl inp).1.isRightHandPresent = ts.isRightHandPresent ∧
    (tickMain ts wr wl inp).1.isLeftHandPresent = ts.isLeftHandPresent ∧
    (wr = true →
      (tickMain ts wr wl inp).1.engine.audio.currentMelodyNote = none ∧
      (tickMain ts wr wl inp).1.engine.audio.rightHandIsPlaying = false ∧
      (ts.engine.audio.rightHandIsPlaying = true →
        SynthEvent.melodyRelease inp.toneNow ∈ (tickMain ts wr wl inp).2)) ∧
    (wr = false →
      (tickMain ts wr wl inp).1.engine.audio.currentMelodyNote =
        ts.engine.audio.currentMelodyNote ∧
      (tickMain ts wr wl inp).1.engine.audio.rightHandIsPlaying =
        ts.engine.audio.rightHandIsPlaying) ∧
    (wl = true →
      currentChordNotes (tickMain ts wr wl inp).1.engine = [] ∧
      (tickMain ts wr wl inp).1.engine.audio.leftHandIsPlaying = false ∧
      (ts.engine.audio.leftHandIsPlaying = true →
        SynthEvent.releaseAll inp.toneNow ∈ (tickMain ts wr wl inp).2)) ∧
    (wl = false →
      currentChordNotes (tickMain ts wr wl inp).1.engine =
        currentChordNotes ts.engine ∧
      (tickMain ts wr wl inp).1.engine.audio.leftHandIsPlaying =
        ts.engine.audio.leftHandIsPlaying) := by
  simp only [tickMain, hr, hl, Option.isSome_none, Bool.or_self,
    Bool.false_eq_true, if_false]
  cases wr <;> cases wl
  · rw [if_neg (fun hc => Bool.noConfusion hc)]
    rw [if_neg (fun hc => Bool.noConfusion hc)]
    exact ⟨hE, rfl, rfl, fun h => Bool.noConfusion h,
      fun _ => ⟨rfl, rfl⟩, fun h => Bool.noConfusion h,
      fun _ => ⟨rfl, rfl⟩⟩
  · rw [if_pos rfl]
    rw [if_neg (fun hc => Bool.noConfusion hc)]
    obtain ⟨B1, B2, B3, B4, B5, B6, B7⟩ :=
      stopChord_stage ts.engine inp.toneNow hE
    exact ⟨B1, rfl, rfl, fun h => Bool.noConfusion h,
      fun _ => ⟨B5, B4⟩,
      fun _ => ⟨B2, B3, fun hp => by
        rw [B7 hp]
        simp⟩,
      fun h => Bool.noConfusion h⟩
  · rw [if_neg (fun hc => Bool.noConfusion hc)]
    rw [if_pos rfl]
    obtain ⟨A1, A2, A3, A4, A5, A6, A7⟩ :=
      stopMelody_stage ts.engine inp.toneNow hE
    exact ⟨A1, rfl, rfl,
      fun _ => ⟨A2, A3, fun hp => by
        rw [A7 hp]
        simp⟩,
      fun h => Bool.noConfusion h,
      fun h => Bool.noConfusion h,
      fun _ => ⟨currentChordNotes_eq_of A5, A4⟩⟩
  · rw [if_pos rfl]
    rw [if_pos rfl]
    obtain ⟨A1, A2, A3, A4, A5, A6, A7⟩ :=
      stopMelody_stage ts.engine inp.toneNow hE
    obtain ⟨B1, B2, B3, B4, B5, B6, B7⟩ :=
      stopChord_stage (stopMelody ts.engine inp.toneNow).1 inp.toneNow A1
    exact ⟨B1, rfl, rfl,
      fun _ => ⟨B5.trans A2, B4.trans A3, fun hp => by
        rw [A7 hp]
        simp⟩,
      fun h => Bool.noConfusion h,
      fun _ => ⟨B2, B3, fun hp => by
        rw [B7 (A4.trans hp)]
        simp⟩,
      fun h => Bool.noConfusion h⟩

lemma tickMain_sn (ts : TrackerState) (wr wl : Bool) (inp : TickInput)
    (hs : HandSample) (hr : inp.right = some hs) (hl : inp.left = none)
    (hE : EngInv ts.engine) :
    EngInv (tickMain ts wr wl inp).1.engine ∧
    (tickMain ts wr wl inp).1.isRightHandPresent = true ∧
    (tickMain ts wr wl inp).1.isLeftHandPresent = ts.isLeftHandPresent ∧
    (tickMain ts wr wl inp).1.engine.audio.leftHandIsPlaying =
      ts.engine.audio.leftHandIsPlaying ∧
    currentChordNotes (tickMain ts wr wl inp).1.engine =
      currentChordNotes ts.engine := by
  simp only [tickMain, hr, hl, Option.isSome_some, Option.isSome_none,
    Bool.or_false, if_true]
  obtain ⟨S1, S2, S3, S4, S5, S6⟩ :=
    processRightHand_spec { ts with initialHandDetected := true } hs
      (decide (20 < inp.perfNow - ts.lastAudioUpdate)) inp hE
  obtain ⟨T1, T2, T3⟩ :=
    lastAudioPatch (decide (20 < inp.perfNow - ts.lastAudioUpdate))
      (processRightHand { ts with initialHandDetected := true } hs
        (decide (20 < inp.perfNow - ts.lastAudioUpdate)) inp).1 inp.perfNow
  refine ⟨?_, ?_, ?_, ?_, ?_⟩
  · rw [T1]
    exact S1
  · rw [T2]
    exact S2
  · rw [T3]
    exact S3
  · rw [T1]
    exact S4
  · rw [T1]
    exact currentChordNotes_eq_of S5

lemma tickMain_ns (ts : TrackerState) (wr wl : Bool) (inp : TickInput)
    (hs : HandSample) (hr : inp.right = none) (hl : inp.left = some hs)
    (hE : EngInv ts.engine) :
    EngInv (tickMain ts wr wl inp).1.engine ∧
    (tickMain ts wr wl inp).1.isLeftHandPresent = true ∧
    (tickMain ts wr wl inp).1.isRightHandPresent = ts.isRightHandPresent ∧
    (tickMain ts wr wl inp).1.engine.audio.rightHandIsPlaying =
      ts.engine.audio.rightHandIsPlaying ∧
    (tickMain ts wr wl inp).1.engine.audio.currentMelodyNote =
      ts.engine.audio.currentMelodyNote := by
  simp only [tickMain, hr, hl, Option.isSome_none, Option.isSome_some,
    Bool.false_or, if_true]
  obtain ⟨S1, S2, S3, S4, S5, S6⟩ :=
    processLeftHand_spec { ts with initialHandDetected := true } hs
      (decide (20 < inp.perfNow - ts.lastAudioUpdate)) inp hE
  obtain ⟨T1, T2, T3⟩ :=
    lastAudioPatch (decide (20 < inp.perfNow - ts.lastAudioUpdate))
      (processLeftHand { ts with initialHandDetected := true } hs
        (decide (20 < inp.perfNow - ts.lastAudioUpdate)) inp).1 inp.perfNow
  refine ⟨?_, ?_, ?_, ?_, ?_⟩
  · rw [T1]
    exact S1
  · rw [T3]
    exact S2
  · rw [T2]
    exact S3
  · rw [T1]
    exact S4
  · rw [T1]
    exact S5

lemma tickMain_ss (ts : TrackerState) (wr wl : Bool) (inp : TickInput)
    (hsr hsl : HandSample) (hr : inp.right = some hsr)
    (hl : inp.left = some hsl) (hE : EngInv ts.engine) :
    EngInv (tickMain ts wr wl inp).1.engine ∧
    (tickMain ts wr wl inp).1.isRightHandPresent = true ∧
    (tickMain ts wr wl inp).1.isLeftHandPresent = true := by
  simp only [tickMain, hr, hl, Option.isSome_some, Bool.or_self, if_true]
  obtain ⟨S1, S2, S3, S4, S5, S6⟩ :=
    processRightHand_spec { ts with initialHandDetected := true } hsr
      (decide (20 < inp.perfNow - ts.lastAudioUpdate)) inp hE
  obtain ⟨U1, U2, U3, U4, U5, U6⟩ :=
    processLeftHand_spec
      (processRightHand { ts with initialHandDetected := true } hsr
        (decide (20 < inp.perfNow - ts.lastAudioUpdate)) inp).1 hsl
      (decide (20 < inp.perfNow - ts.lastAudioUpdate)) inp S1
  obtain ⟨T1, T2, T3⟩ :=
    lastAudioPatch (decide (20 < inp.perfNow - ts.lastAudioUpdate))
      (processLeftHand
        (processRightHand { ts with initialHandDetected := true } hsr
          (decide (20 < inp.perfNow - ts.lastAudioUpdate)) inp).1 hsl
        (decide (20 < inp.perfNow - ts.lastAudioUpdate)) inp).1 inp.perfNow
  refine ⟨?_, ?_, ?_⟩
  · rw [T1]
    exact U1
  · rw [T2]
    exact U3.trans S2
  · rw [T3]
    exact U2
lemma tick_spec (ts : TrackerState) (inp : TickInput) (hinv : TrkInv ts) :
    TrkInv (tick ts inp).1 ∧
    (inp.right = none → (tick ts inp).1.isRightHandPresent = false) ∧
    (inp.left = none → (tick ts inp).1.isLeftHandPresent = false) ∧
    (inp.right = none → ts.isRightHandPresent = true →
      ts.engine.audio.rightHandIsPlaying = true →
      SynthEvent.melodyRelease inp.toneNow ∈ (tick ts inp).2) ∧
    (inp.left = none → ts.isLeftHandPresent = true →
      ts.engine.audio.leftHandIsPlaying = true →
      SynthEvent.releaseAll inp.toneNow ∈ (tick ts inp).2) := by
  obtain ⟨P0, F1r, F1l, G1r, G1l⟩ := startPatch_facts ts inp.startAudio hinv
  obtain ⟨hE1, hR1, hL1⟩ := P0
  simp only [tick_decompose]
  rcases hrt : inp.right with _ | sr
  · rcases hlf : inp.left with _ | sl
    · -- no right hand, no left hand
      obtain ⟨M1, M2, M3, M4, M5, M6, M7⟩ :=
        tickMain_nn { startPatch ts inp.startAudio with
          isLeftHandPresent := false, isRightHandPresent := false }
          (startPatch ts inp.startAudio).isRightHandPresent
          (startPatch ts inp.startAudio).isLeftHandPresent inp hrt hlf hE1
      obtain ⟨R1, R2, R3, R4, R5, R6, R7⟩ :=
        tickEndR_spec (tickMain { startPatch ts inp.startAudio with
          isLeftHandPresent := false, isRightHandPresent := false }
        (startPatch ts inp.startAudio).isRightHandPresent
        (startPatch ts inp.startAudio).isLeftHandPresent inp).1
          (startPatch ts inp.startAudio).isRightHandPresent inp.toneNow M1
      obtain ⟨L1, L2, L3, L4, L5, L6, L7⟩ :=
        tickEndL_spec (tickEndR (tickMain { startPatch ts inp.startAudio with
          isLeftHandPresent := false, isRightHandPresent := false }
        (startPatch ts inp.startAudio).isRightHandPresent
        (startPatch ts inp.startAudio).isLeftHandPresent inp).1
        (startPatch ts inp.startAudio).isRightHandPresent inp.toneNow).1
          (startPatch ts inp.startAudio).isLeftHandPresent inp.toneNow R1
      have hMel : (tickEndL (tickEndR (tickMain { startPatch ts inp.startAudio with
          isLeftHandPresent := false, isRightHandPresent := false }
        (startPatch ts inp.startAudio).isRightHandPresent
        (startPatch ts inp.startAudio).isLeftHandPresent inp).1
        (startPatch ts inp.startAudio).isRightHandPresent inp.toneNow).1
        (startPatch ts inp.startAudio).isLeftHandPresent inp.toneNow).1.engine.audio.currentMelodyNote = none ∧
          (tickEndL (tickEndR (tickMain { startPatch ts inp.startAudio with
          isLeftHandPresent := false, isRightHandPresent := false }
        (startPatch ts inp.startAudio).isRightHandPresent
        (startPatch ts inp.startAudio).isLeftHandPresent inp).1
        (startPatch ts inp.startAudio).isRightHandPresent inp.toneNow).1
        (startPatch ts inp.startAudio).isLeftHandPresent inp.toneNow).1.engine.audio.rightHandIsPlaying = false := by
        by_cases hwr : (startPatch ts inp.startAudio).isRightHandPresent = true
        · have hm := M4 hwr
          have hr6 := R6 ⟨hm.1, hm.2.1⟩
          exact ⟨L5.trans hr6.1, L4.trans hr6.2⟩
        · have hwr2 : (startPatch ts inp.startAudio).isRightHandPresent = false := by
            cases hb : (startPatch ts inp.startAudio).isRightHandPresent
            · rfl
            · exact absurd hb hwr
          have hm := M5 hwr2
          have h0 := hR1 hwr2
          have hr6 := R6 ⟨hm.1.trans h0.1, hm.2.trans h0.2⟩
          exact ⟨L5.trans hr6.1, L4.trans hr6.2⟩
      have hCh : currentChordNotes (tickEndL (tickEndR (tickMain { startPatch ts inp.startAudio with
          isLeftHandPresent := false, isRightHandPresent := false }
        (startPatch ts inp.startAudio).isRightHandPresent
        (startPatch ts inp.startAudio).isLeftHandPresent inp).1
        (startPatch ts inp.startAudio).isRightHandPresent inp.toneNow).1
        (startPatch ts inp.startAudio).isLeftHandPresent inp.toneNow).1.engine = [] ∧
          (tickEndL (tickEndR (tickMain { startPatch ts inp.startAudio with
          isLeftHandPresent := false, isRightHandPresent := false }
        (startPatch ts inp.startAudio).isRightHandPresent
        (startPatch ts inp.startAudio).isLeftHandPresent inp).1
        (startPatch ts inp.startAudio).isRightHandPresent inp.toneNow).1
        (startPatch ts inp.startAudio).isLeftHandPresent inp.toneNow).1.engine.audio.leftHandIsPlaying = false := by
        by_cases hwl : (startPatch ts inp.startAudio).isLeftHandPresent = true
        · have hm := M6 hwl
          exact L6 ⟨R5.trans hm.1, R4.trans hm.2.1⟩
        · have hwl2 : (startPatch ts inp.startAudio).isLeftHandPresent = false := by
            cases hb : (startPatch ts inp.startAudio).isLeftHandPresent
            · rfl
            · exact absurd hb hwl
          have hm := M7 hwl2
          have h0 := hL1 hwl2
          exact L6 ⟨R5.trans (hm.1.trans h0.1), R4.trans (hm.2.trans h0.2)⟩
      refine ⟨⟨L1, fun _ => hMel, fun _ => hCh⟩,
        fun _ => L2.trans (R2.trans M2),
        fun _ => L3.trans (R3.trans M3), ?_, ?_⟩
      · intro _ hpres hplay
        have hwr : (startPatch ts inp.startAudio).isRightHandPresent = true := F1r.trans hpres
        have hev := (M4 hwr).2.2 (G1r.trans hplay)
        exact List.mem_append.mpr (Or.inl (List.mem_append.mpr (Or.inl hev)))
      · intro _ hpres hplay
        have hwl : (startPatch ts inp.startAudio).isLeftHandPresent = true := F1l.trans hpres
        have hev := (M6 hwl).2.2 (G1l.trans hplay)
        exact List.mem_append.mpr (Or.inl (List.mem_append.mpr (Or.inl hev)))
    · -- no right hand, left hand present
      obtain ⟨M1, M2, M3, M4, M5⟩ :=
        tickMain_ns { startPatch ts inp.startAudio with
          isLeftHandPresent := false, isRightHandPresent := false }
          (startPatch ts inp.startAudio).isRightHandPresent
          (startPatch ts inp.startAudio).isLeftHandPresent inp sl hrt hlf hE1
      obtain ⟨R1, R2, R3, R4, R5, R6, R7⟩ :=
        tickEndR_spec (tickMain { startPatch ts inp.startAudio with
          isLeftHandPresent := false, isRightHandPresent := false }
        (startPatch ts inp.startAudio).isRightHandPresent
        (startPatch ts inp.startAudio).isLeftHandPresent inp).1
          (startPatch ts inp.startAudio).isRightHandPresent inp.toneNow M1
      obtain ⟨L1, L2, L3, L4, L5, L6, L7⟩ :=
        tickEndL_spec (tickEndR (tickMain { startPatch ts inp.startAudio with
          isLeftHandPresent := false, isRightHandPresent := false }
        (startPatch ts inp.startAudio).isRightHandPresent
        (startPatch ts inp.startAudio).isLeftHandPresent inp).1
        (startPatch ts inp.startAudio).isRightHandPresent inp.toneNow).1
          (startPatch ts inp.startAudio).isLeftHandPresent inp.toneNow R1
      have hMel : (tickEndL (tickEndR (tickMain { startPatch ts inp.startAudio with
          isLeftHandPresent := false, isRightHandPresent := false }
        (startPatch ts inp.startAudio).isRightHandPresent
        (startPatch ts inp.startAudio).isLeftHandPresent inp).1
        (startPatch ts inp.startAudio).isRightHandPresent inp.toneNow).1
        (startPatch ts inp.startAudio).isLeftHandPresent inp.toneNow).1.engine.audio.currentMelodyNote = none ∧
          (tickEndL (tickEndR (tickMain { startPatch ts inp.startAudio with
          isLeftHandPresent := false, isRightHandPresent := false }
        (startPatch ts inp.startAudio).isRightHandPresent
        (startPatch ts inp.startAudio).isLeftHandPresent inp).1
        (startPatch ts inp.startAudio).isRightHandPresent inp.toneNow).1
        (startPatch ts inp.startAudio).isLeftHandPresent inp.toneNow).1.engine.audio.rightHandIsPlaying = false := by
        by_cases hwr : (startPatch ts inp.startAudio).isRightHandPresent = true
        · have hr7 := R7 M3 hwr
          exact ⟨L5.trans hr7.1, L4.trans hr7.2.1⟩
        · have hwr2 : (startPatch ts inp.startAudio).isRightHandPresent = false := by
            cases hb : (startPatch ts inp.startAudio).isRightHandPresent
            · rfl
            · exact absurd hb hwr
          have h0 := hR1 hwr2
          have hr6 := R6 ⟨M5.trans h0.1, M4.trans h0.2⟩
          exact ⟨L5.trans hr6.1, L4.trans hr6.2⟩
      have hfl : (tickEndL (tickEndR (tickMain { startPatch ts inp.startAudio with
          isLeftHandPresent := false, isRightHandPresent := false }
        (startPatch ts inp.startAudio).isRightHandPresent
        (startPatch ts inp.startAudio).isLeftHandPresent inp).1
        (startPatch ts inp.startAudio).isRightHandPresent inp.toneNow).1
        (startPatch ts inp.startAudio).isLeftHandPresent inp.toneNow).1.isLeftHandPresent = true := L3.trans (R3.trans M2)
      refine ⟨⟨L1, fun _ => hMel,
          fun hflag => Bool.noConfusion (hfl.symm.trans hflag)⟩,
        fun _ => L2.trans (R2.trans M3),
        fun h => by simp [hlf] at h, ?_,
        fun h _ _ => by simp [hlf] at h⟩
      · intro _ hpres hplay
        have hwr : (startPatch ts inp.startAudio).isRightHandPresent = true := F1r.trans hpres
        have hplm : (tickMain { startPatch ts inp.startAudio with
          isLeftHandPresent := false, isRightHandPresent := false }
        (startPatch ts inp.startAudio).isRightHandPresent
        (startPatch ts inp.startAudio).isLeftHandPresent inp).1.engine.audio.rightHandIsPlaying = true :=
          M4.trans (G1r.trans hplay)
        have hev := (R7 M3 hwr).2.2 hplm
        exact List.mem_append.mpr (Or.inl (List.mem_append.mpr (Or.inr hev)))
  · rcases hlf : inp.left with _ | sl
    · -- right hand present, no left hand
      obtain ⟨M1, M2, M3, M4, M5⟩ :=
        tickMain_sn { startPatch ts inp.startAudio with
          isLeftHandPresent := false, isRightHandPresent := false }
          (startPatch ts inp.startAudio).isRightHandPresent
          (startPatch ts inp.startAudio).isLeftHandPresent inp sr hrt hlf hE1
      obtain ⟨R1, R2, R3, R4, R5, R6, R7⟩ :=
        tickEndR_spec (tickMain { startPatch ts inp.startAudio with
          isLeftHandPresent := false, isRightHandPresent := false }
        (startPatch ts inp.startAudio).isRightHandPresent
        (startPatch ts inp.startAudio).isLeftHandPresent inp).1
          (startPatch ts inp.startAudio).isRightHandPresent inp.toneNow M1
      obtain ⟨L1, L2, L3, L4, L5, L6, L7⟩ :=
        tickEndL_spec (tickEndR (tickMain { startPatch ts inp.startAudio with
          isLeftHandPresent := false, isRightHandPresent := false }
        (startPatch ts inp.startAudio).isRightHandPresent
        (startPatch ts inp.startAudio).isLeftHandPresent inp).1
        (startPatch ts inp.startAudio).isRightHandPresent inp.toneNow).1
          (startPatch ts inp.startAudio).isLeftHandPresent inp.toneNow R1
      have hfr : (tickEndL (tickEndR (tickMain { startPatch ts inp.startAudio with
          isLeftHandPresent := false, isRightHandPresent := false }
        (startPatch ts inp.startAudio).isRightHandPresent
        (startPatch ts inp.startAudio).isLeftHandPresent inp).1
        (startPatch ts inp.startAudio).isRightHandPresent inp.toneNow).1
        (startPatch ts inp.startAudio).isLeftHandPresent inp.toneNow).1.isRightHandPresent = true := L2.trans (R2.trans M2)
      have hCh : currentChordNotes (tickEndL (tickEndR (tickMain { startPatch ts inp.startAudio with
          isLeftHandPresent := false, isRightHandPresent := false }
        (startPatch ts inp.startAudio).isRightHandPresent
        (startPatch ts inp.startAudio).isLeftHandPresent inp).1
        (startPatch ts inp.startAudio).isRightHandPresent inp.toneNow).1
        (startPatch ts inp.startAudio).isLeftHandPresent inp.toneNow).1.engine = [] ∧
          (tickEndL (tickEndR (tickMain { startPatch ts inp.startAudio with
          isLeftHandPresent := false, isRightHandPresent := false }
        (startPatch ts inp.startAudio).isRightHandPresent
        (startPatch ts inp.startAudio).isLeftHandPresent inp).1
        (startPatch ts inp.startAudio).isRightHandPresent inp.toneNow).1
        (startPatch ts inp.startAudio).isLeftHandPresent inp.toneNow).1.engine.audio.leftHandIsPlaying = false := by
        by_cases hwl : (startPatch ts inp.startAudio).isLeftHandPresent = true
        · have hl7 := L7 (R3.trans M3) hwl
          exact ⟨hl7.1, hl7.2.1⟩
        · have hwl2 : (startPatch ts inp.startAudio).isLeftHandPresent = false := by
            cases hb : (startPatch ts inp.startAudio).isLeftHandPresent
            · rfl
            · exact absurd hb hwl
          have h0 := hL1 hwl2
          exact L6 ⟨R5.trans (M5.trans h0.1), R4.trans (M4.trans h0.2)⟩
      refine ⟨⟨L1, fun hflag => Bool.noConfusion (hfr.symm.trans hflag),
          fun _ => hCh⟩,
        fun h => by simp [hrt] at h,
        fun _ => L3.trans (R3.trans M3),
        fun h _ _ => by simp [hrt] at h, ?_⟩
      · intro _ hpres hplay
        have hwl : (startPatch ts inp.startAudio).isLeftHandPresent = true := F1l.trans hpres
        have hplf : (tickEndR (tickMain { startPatch ts inp.startAudio with
          isLeftHandPresent := false, isRightHandPresent := false }
        (startPatch ts inp.startAudio).isRightHandPresent
        (startPatch ts inp.startAudio).isLeftHandPresent inp).1
        (startPatch ts inp.startAudio).isRightHandPresent inp.toneNow).1.engine.audio.leftHandIsPlaying = true :=
          R4.trans (M4.trans (G1l.trans hplay))
        have hev := (L7 (R3.trans M3) hwl).2.2 hplf
        exact List.mem_append.mpr (Or.inr hev)
    · -- both hands present
      obtain ⟨M1, M2, M3⟩ :=
        tickMain_ss { startPatch ts inp.startAudio with
          isLeftHandPresent := false, isRightHandPresent := false }
          (startPatch ts inp.startAudio).isRightHandPresent
          (startPatch ts inp.startAudio).isLeftHandPresent inp sr sl hrt hlf hE1
      obtain ⟨R1, R2, R3, R4, R5, R6, R7⟩ :=
        tickEndR_spec (tickMain { startPatch ts inp.startAudio with
          isLeftHandPresent := false, isRightHandPresent := false }
        (startPatch ts inp.startAudio).isRightHandPresent
        (startPatch ts inp.startAudio).isLeftHandPresent inp).1
          (startPatch ts inp.startAudio).isRightHandPresent inp.toneNow M1
      obtain ⟨L1, L2, L3, L4, L5, L6, L7⟩ :=
        tickEndL_spec (tickEndR (tickMain { startPatch ts inp.startAudio with
          isLeftHandPresent := false, isRightHandPresent := false }
        (startPatch ts inp.startAudio).isRightHandPresent
        (startPatch ts inp.startAudio).isLeftHandPresent inp).1
        (startPatch ts inp.startAudio).isRightHandPresent inp.toneNow).1
          (startPatch ts inp.startAudio).isLeftHandPresent inp.toneNow R1
      have hfr : (tickEndL (tickEndR (tickMain { startPatch ts inp.startAudio with
          isLeftHandPresent := false, isRightHandPresent := false }
        (startPatch ts inp.startAudio).isRightHandPresent
        (startPatch ts inp.startAudio).isLeftHandPresent inp).1
        (startPatch ts inp.startAudio).isRightHandPresent inp.toneNow).1
        (startPatch ts inp.startAudio).isLeftHandPresent inp.toneNow).1.isRightHandPresent = true := L2.trans (R2.trans M2)
      have hfl : (tickEndL (tickEndR (tickMain { startPatch ts inp.startAudio with
          isLeftHandPresent := false, isRightHandPresent := false }
        (startPatch ts inp.startAudio).isRightHandPresent
        (startPatch ts inp.startAudio).isLeftHandPresent inp).1
        (startPatch ts inp.startAudio).isRightHandPresent inp.toneNow).1
        (startPatch ts inp.startAudio).isLeftHandPresent inp.toneNow).1.isLeftHandPresent = true := L3.trans (R3.trans M3)
      exact ⟨⟨L1, fun h => Bool.noConfusion (hfr.symm.trans h),
          fun h => Bool.noConfusion (hfl.symm.trans h)⟩,
        fun h => by simp [hrt] at h,
        fun h => by simp [hlf] at h,
        fun h _ _ => by simp [hrt] at h,
        fun h _ _ => by simp [hlf] at h⟩

lemma TrkInv_init (cfg : Config) : TrkInv (initTrackerState cfg) :=
  ⟨⟨fun _ => rfl, fun _ => rfl, fun _ => ⟨rfl, rfl⟩⟩,
   fun _ => ⟨rfl, rfl⟩, fun _ => ⟨rfl, rfl⟩⟩

lemma runTicks_inv (inputs : List TickInput) :
    ∀ ts : TrackerState, TrkInv ts → TrkInv (runTicks ts inputs).1 := by
  induction inputs with
  | nil => intro ts h; exact h
  | cons i rest ih =>
    intro ts h
    exact ih (tick ts i).1 (tick_spec ts i h).1

/-- Claim C3: disappearance invariant. From any reachable tracker state, a
tick in which a hand is absent leaves that axis's sounding state empty
(`currentMelodyNote = null` / `currentChord.notes = []`, not-playing) — in
particular it stays empty on every subsequent absent tick — and if the
axis's presence flag was up with a sounding note when the hand vanished,
the same tick emits the corresponding stop call (`triggerRelease` /
`releaseAll`). -/
theorem hand_disappearance (cfg : Config) (past : List TickInput)
    (inp : TickInput) :
    (inp.right = none →
      ((tick (runTicks (initTrackerState cfg) past).1
          inp).1.engine.audio.currentMelodyNote = none ∧
       (tick (runTicks (initTrackerState cfg) past).1
          inp).1.engine.audio.rightHandIsPlaying = false) ∧
      ((runTicks (initTrackerState cfg) past).1.isRightHandPresent = true →
        (runTicks (initTrackerState
          cfg) past).1.engine.audio.rightHandIsPlaying = true →
        SynthEvent.melodyRelease inp.toneNow ∈
          (tick (runTicks (initTrackerState cfg) past).1 inp).2)) ∧
    (inp.left = none →
      (currentChordNotes
          (tick (runTicks (initTrackerState cfg) past).1 inp).1.engine
          = [] ∧
       (tick (runTicks (initTrackerState cfg) past).1
          inp).1.engine.audio.leftHandIsPlaying = false) ∧
      ((runTicks (initTrackerState cfg) past).1.isLeftHandPresent = true →
        (runTicks (initTrackerState
          cfg) past).1.engine.audio.leftHandIsPlaying = true →
        SynthEvent.releaseAll inp.toneNow ∈
          (tick (runTicks (initTrackerState cfg) past).1 inp).2)) := by
  have hI := runTicks_inv past (initTrackerState cfg) (TrkInv_init cfg)
  obtain ⟨T1, T2, T3, T4, T5⟩ :=
    tick_spec (runTicks (initTrackerState cfg) past).1 inp hI
  obtain ⟨E, RC, LC⟩ := T1
  exact ⟨fun hr => ⟨RC (T2 hr), fun hpres hplay => T4 hr hpres hplay⟩,
         fun hl => ⟨LC (T3 hl), fun hpres hplay => T5 hl hpres hplay⟩⟩

/-- Claim C3, witness: the no-hands tick on a fresh tracker leaves the
melody state empty. -/
theorem hand_disappearance_witness :
    (tick (runTicks (initTrackerState ⟨"major", "C", some 4⟩) []).1
        ⟨none, none, 0, 0, 0, false⟩).1.engine.audio.currentMelodyNote =
      none :=
  ((hand_disappearance ⟨"major", "C", some 4⟩ []
      ⟨none, none, 0, 0, 0, false⟩).1 rfl).1.1

end HS
